import Mathlib

/-!
Point-region quadtree (`src/Code.cpp`)

A shallow embedding of the classes `Point`, `BoundingBox` and `QuadTree` of
`src/Code.cpp`, followed by theorems about `insert`, `subdivide` and
`queryRange`.

Modelling conventions

* A `double` is a value of `Dbl`: NaN, minus infinity, a finite value, or plus
  infinity.  Comparisons follow IEEE 754: every comparison with NaN is false.
  Finite values are rationals; every finite `double` is one.
* The two arithmetic operations the program performs, `a + b` and `a / 2`,
  follow IEEE 754 on NaN and the infinities.  On finite operands the exact
  result is rounded by a `Rounding`, an arbitrary function from the exact
  result to a `double` that is not NaN (it may overflow to an infinity).  The
  theorems hold for every such rounding unless they say otherwise.
* A `QuadTree*` is a value of the inductive type `QuadTree`: `null` is
  `nullptr`, `node` is a live object.  Calling a method through `null` is the
  error `Err.nullDeref`.
* `insert` mutates the tree and returns a `bool`; the model returns the pair
  of the returned flag and the tree after the call.
* `insert` recurses into children it has just allocated, which is not a
  structural recursion, so it carries a fuel bounding the call depth;
  exhausting the fuel is the error `Err.outOfFuel`.
* `int capacity` is an `Int`; the test `points.size() < capacity` converts the
  capacity to the unsigned 64-bit `size_t`, i.e. reduces it modulo `2 ^ 64`.
-/

namespace QuadTreeModel

/-- A `double`: NaN, minus infinity, a finite value, plus infinity. -/
inductive Dbl where
  | nan : Dbl
  | ninf : Dbl
  | fin (q : ℚ) : Dbl
  | pinf : Dbl
  deriving DecidableEq, Repr

/-- Rounding of the exact result of an operation on finite operands to a
`double`: a finite value or, on overflow, an infinity, never NaN. -/
structure Rounding where
  rnd : ℚ → Dbl
  not_nan : ∀ q, rnd q ≠ Dbl.nan

/-- The comparison `a <= b` of two `double`s. -/
def Dbl.le : Dbl → Dbl → Bool
  | .nan, _ => false
  | _, .nan => false
  | .ninf, _ => true
  | _, .pinf => true
  | .fin a, .fin b => decide (a ≤ b)
  | .fin _, .ninf => false
  | .pinf, .ninf => false
  | .pinf, .fin _ => false

/-- The comparison `a < b` of two `double`s. -/
def Dbl.lt : Dbl → Dbl → Bool
  | .nan, _ => false
  | _, .nan => false
  | .ninf, .ninf => false
  | .ninf, _ => true
  | .pinf, _ => false
  | .fin a, .fin b => decide (a < b)
  | .fin _, .ninf => false
  | .fin _, .pinf => true

/-- The comparison `a >= b`, that is `b <= a`. -/
def Dbl.ge (a b : Dbl) : Bool := Dbl.le b a

/-- The comparison `a > b`, that is `b < a`. -/
def Dbl.gt (a b : Dbl) : Bool := Dbl.lt b a

/-- The sum `a + b` of two `double`s. -/
def Dbl.add (ρ : Rounding) : Dbl → Dbl → Dbl
  | .nan, _ => .nan
  | _, .nan => .nan
  | .ninf, .pinf => .nan
  | .pinf, .ninf => .nan
  | .ninf, _ => .ninf
  | _, .ninf => .ninf
  | .pinf, _ => .pinf
  | _, .pinf => .pinf
  | .fin a, .fin b => ρ.rnd (a + b)

/-- The quotient `a / 2` of a `double` by the constant 2. -/
def Dbl.half (ρ : Rounding) : Dbl → Dbl
  | .nan => .nan
  | .ninf => .ninf
  | .pinf => .pinf
  | .fin a => ρ.rnd (a / 2)

/-- Class `Point` (lines 9-14): two coordinates. -/
structure Point where
  x : Dbl
  y : Dbl
  deriving DecidableEq, Repr

/-- Class `BoundingBox` (lines 17-27): the corners `(x1, y1)` and `(x2, y2)`. -/
structure BoundingBox where
  x1 : Dbl
  y1 : Dbl
  x2 : Dbl
  y2 : Dbl
  deriving DecidableEq, Repr

/-- Method `BoundingBox::contains` (lines 21-23). -/
def BoundingBox.contains (b : BoundingBox) (p : Point) : Bool :=
  Dbl.ge p.x b.x1 && Dbl.le p.x b.x2 && Dbl.ge p.y b.y1 && Dbl.le p.y b.y2

/-- Method `BoundingBox::intersects` (lines 24-26). -/
def BoundingBox.intersects (b other : BoundingBox) : Bool :=
  !(Dbl.gt other.x1 b.x2 || Dbl.lt other.x2 b.x1 ||
    Dbl.gt other.y1 b.y2 || Dbl.lt other.y2 b.y1)

/-- Class `QuadTree` (lines 30-36) seen through a pointer: `null` is `nullptr`,
`node boundary capacity points nw ne sw se` is an object with its five data
members and four child pointers. -/
inductive QuadTree where
  | null : QuadTree
  | node (boundary : BoundingBox) (capacity : Int) (points : List Point)
      (nw ne sw se : QuadTree) : QuadTree
  deriving DecidableEq, Repr

/-- The two ways a call can fail to return: a method called through `nullptr`,
or a call depth beyond the fuel. -/
inductive Err where
  | nullDeref
  | outOfFuel
  deriving DecidableEq, Repr

/-- Constructor `QuadTree::QuadTree` (line 36): no points, four null children. -/
def QuadTree.new (boundary : BoundingBox) (capacity : Int) : QuadTree :=
  .node boundary capacity [] .null .null .null .null

/-- The test `p == nullptr`. -/
def QuadTree.isNull : QuadTree → Bool
  | .null => true
  | .node _ _ _ _ _ _ _ => false

/-- The comparison `points.size() < capacity` (line 47): `size` is a `size_t`,
so the `int` capacity is converted to unsigned 64 bits before comparing. -/
def sizeLtCapacity (size : Nat) (capacity : Int) : Bool :=
  decide ((size : Int) < capacity % 2 ^ 64)

/-- Method `QuadTree::subdivide` (lines 78-85): overwrite the four child
pointers with fresh nodes over the four quadrants, each with the capacity of
this node.  The buffer is left as it is. -/
def QuadTree.subdivide (ρ : Rounding) : QuadTree → QuadTree
  | .null => .null
  | .node boundary capacity points _ _ _ _ =>
    let xMid := Dbl.half ρ (Dbl.add ρ boundary.x1 boundary.x2)
    let yMid := Dbl.half ρ (Dbl.add ρ boundary.y1 boundary.y2)
    .node boundary capacity points
      (QuadTree.new ⟨boundary.x1, boundary.y1, xMid, yMid⟩ capacity)
      (QuadTree.new ⟨xMid, boundary.y1, boundary.x2, yMid⟩ capacity)
      (QuadTree.new ⟨boundary.x1, yMid, xMid, boundary.y2⟩ capacity)
      (QuadTree.new ⟨xMid, yMid, boundary.x2, boundary.y2⟩ capacity)

/-- Method `QuadTree::insert` (lines 43-59) with a bound `fuel` on the call
depth.  The result is the returned flag and the tree after the call.  A child
that returned `false` may have been modified by the call, so the later
children are tried on the tree as that call left it. -/
def QuadTree.insertFuel (ρ : Rounding) : Nat → QuadTree → Point → Except Err (Bool × QuadTree)
  | 0, _, _ => .error .outOfFuel
  | _ + 1, .null, _ => .error .nullDeref
  | fuel + 1, .node boundary capacity points nw ne sw se, p =>
    if !boundary.contains p then
      .ok (false, .node boundary capacity points nw ne sw se)
    else if sizeLtCapacity points.length capacity then
      .ok (true, .node boundary capacity (points ++ [p]) nw ne sw se)
    else
      match (if nw.isNull then (QuadTree.node boundary capacity points nw ne sw se).subdivide ρ
             else .node boundary capacity points nw ne sw se) with
      | .null => .error .nullDeref
      | .node boundary capacity points nw ne sw se =>
        match insertFuel ρ fuel nw p with
        | .error e => .error e
        | .ok (true, nw) => .ok (true, .node boundary capacity points nw ne sw se)
        | .ok (false, nw) =>
          match insertFuel ρ fuel ne p with
          | .error e => .error e
          | .ok (true, ne) => .ok (true, .node boundary capacity points nw ne sw se)
          | .ok (false, ne) =>
            match insertFuel ρ fuel sw p with
            | .error e => .error e
            | .ok (true, sw) => .ok (true, .node boundary capacity points nw ne sw se)
            | .ok (false, sw) =>
              match insertFuel ρ fuel se p with
              | .error e => .error e
              | .ok (true, se) => .ok (true, .node boundary capacity points nw ne sw se)
              | .ok (false, se) => .ok (false, .node boundary capacity points nw ne sw se)

/-- Method `QuadTree::queryRange` (lines 60-76): the result is the vector
`results` after the call.  The recursion follows the child pointers, so it is
structural. -/
def QuadTree.queryRange : QuadTree → BoundingBox → List Point → Except Err (List Point)
  | .null, _, _ => .error .nullDeref
  | .node boundary _ points nw ne sw se, range, results =>
    if !boundary.intersects range then
      .ok results
    else
      let results := results ++ points.filter (fun p => range.contains p)
      if nw.isNull then
        .ok results
      else
        match nw.queryRange range results with
        | .error e => .error e
        | .ok results =>
          match ne.queryRange range results with
          | .error e => .error e
          | .ok results =>
            match sw.queryRange range results with
            | .error e => .error e
            | .ok results => se.queryRange range results

/-! ## Vocabulary of the properties -/

/-- The midpoint `(a + b) / 2` as `subdivide` computes it (lines 79-80). -/
def Dbl.mid (ρ : Rounding) (a b : Dbl) : Dbl :=
  Dbl.half ρ (Dbl.add ρ a b)

/-- North-west quadrant, as computed in `subdivide` (line 81). -/
def BoundingBox.nwBox (ρ : Rounding) (b : BoundingBox) : BoundingBox :=
  ⟨b.x1, b.y1, Dbl.mid ρ b.x1 b.x2, Dbl.mid ρ b.y1 b.y2⟩

/-- North-east quadrant, as computed in `subdivide` (line 82). -/
def BoundingBox.neBox (ρ : Rounding) (b : BoundingBox) : BoundingBox :=
  ⟨Dbl.mid ρ b.x1 b.x2, b.y1, b.x2, Dbl.mid ρ b.y1 b.y2⟩

/-- South-west quadrant, as computed in `subdivide` (line 83). -/
def BoundingBox.swBox (ρ : Rounding) (b : BoundingBox) : BoundingBox :=
  ⟨b.x1, Dbl.mid ρ b.y1 b.y2, Dbl.mid ρ b.x1 b.x2, b.y2⟩

/-- South-east quadrant, as computed in `subdivide` (line 84). -/
def BoundingBox.seBox (ρ : Rounding) (b : BoundingBox) : BoundingBox :=
  ⟨Dbl.mid ρ b.x1 b.x2, Dbl.mid ρ b.y1 b.y2, b.x2, b.y2⟩

/-- No axis of the box runs from minus infinity to plus infinity.  This is what
keeps the midpoints of a box that contains a point from being NaN. -/
def BoundingBox.NoFullAxis (b : BoundingBox) : Prop :=
  ¬ (b.x1 = .ninf ∧ b.x2 = .pinf) ∧ ¬ (b.y1 = .ninf ∧ b.y2 = .pinf)

/-- The member `boundary` of the object a pointer refers to, if any. -/
def QuadTree.boxOf : QuadTree → Option BoundingBox
  | .null => none
  | .node b _ _ _ _ _ _ => some b

/-- Every point stored in the tree, in pre-order: the buffer of the node in
insertion order, then the NW, NE, SW and SE subtrees. -/
def QuadTree.allPoints : QuadTree → List Point
  | .null => []
  | .node _ _ pts nw ne sw se =>
    pts ++ (nw.allPoints ++ (ne.allPoints ++ (sw.allPoints ++ se.allPoints)))

/-- Number of nodes on the longest path from the node down to a leaf. -/
def QuadTree.height : QuadTree → Nat
  | .null => 0
  | .node _ _ _ nw ne sw se => 1 + max (max nw.height ne.height) (max sw.height se.height)

/-- Every object of the tree, the root first: the node itself, then the objects
of the NW, NE, SW and SE subtrees. -/
def QuadTree.nodes : QuadTree → List QuadTree
  | .null => []
  | .node b c pts nw ne sw se =>
    .node b c pts nw ne sw se :: (nw.nodes ++ (ne.nodes ++ (sw.nodes ++ se.nodes)))

/-- Number of objects in the tree. -/
def QuadTree.numNodes : QuadTree → Nat
  | .null => 0
  | .node _ _ _ nw ne sw se => 1 + (nw.numNodes + (ne.numNodes + (sw.numNodes + se.numNodes)))

/-- The child pointers by position: 0 is `nw`, 1 is `ne`, 2 is `sw`, 3 is `se`. -/
def QuadTree.child : QuadTree → Nat → QuadTree
  | .node _ _ _ nw _ _ _, 0 => nw
  | .node _ _ _ _ ne _ _, 1 => ne
  | .node _ _ _ _ _ sw _, 2 => sw
  | .node _ _ _ _ _ _ se, 3 => se
  | _, _ => .null

/-- The quadrants by position, in the order of `QuadTree.child`. -/
def BoundingBox.quadrant (ρ : Rounding) (b : BoundingBox) : Nat → BoundingBox
  | 0 => b.nwBox ρ
  | 1 => b.neBox ρ
  | 2 => b.swBox ρ
  | _ => b.seBox ρ

/-- Position of the first quadrant, in the order NW, NE, SW, SE, that contains
`p` (3 when none of the first three does). -/
def BoundingBox.firstQuadrant (ρ : Rounding) (b : BoundingBox) (p : Point) : Nat :=
  if (b.nwBox ρ).contains p then 0
  else if (b.neBox ρ).contains p then 1
  else if (b.swBox ρ).contains p then 2
  else 3

/-- Between the tree `t` before a call `insert(p)` and the tree `t1` after it,
the point went below the child at position `i`: that subtree stores one more
copy of `p` and otherwise what it stored. -/
def StoredUnder (p : Point) (t t1 : QuadTree) (i : Nat) : Prop :=
  (t1.child i).allPoints.Perm (p :: (t.child i).allPoints)

/-- The cascade of lines 54-58 on its own: try the four children in the order
NW, NE, SW, SE with call depth `fuel` each, stopping at the first that
accepts. -/
def QuadTree.descend (ρ : Rounding) (fuel : Nat) (boundary : BoundingBox) (capacity : Int)
    (points : List Point) (nw ne sw se : QuadTree) (p : Point) :
    Except Err (Bool × QuadTree) :=
  match insertFuel ρ fuel nw p with
  | .error e => .error e
  | .ok (true, nw) => .ok (true, .node boundary capacity points nw ne sw se)
  | .ok (false, nw) =>
    match insertFuel ρ fuel ne p with
    | .error e => .error e
    | .ok (true, ne) => .ok (true, .node boundary capacity points nw ne sw se)
    | .ok (false, ne) =>
      match insertFuel ρ fuel sw p with
      | .error e => .error e
      | .ok (true, sw) => .ok (true, .node boundary capacity points nw ne sw se)
      | .ok (false, sw) =>
        match insertFuel ρ fuel se p with
        | .error e => .error e
        | .ok (true, se) => .ok (true, .node boundary capacity points nw ne sw se)
        | .ok (false, se) => .ok (false, .node boundary capacity points nw ne sw se)

/-- Insertion as section 4.3 of the specification words it, for comparison
with `insertFuel`: step 2 appends only when the node is still a leaf (children
absent) and the buffer is below capacity; step 3 subdivides a leaf and then
tries the children in the order NW, NE, SW, SE. -/
def QuadTree.insertSpecFuel (ρ : Rounding) :
    Nat → QuadTree → Point → Except Err (Bool × QuadTree)
  | 0, _, _ => .error .outOfFuel
  | _ + 1, .null, _ => .error .nullDeref
  | fuel + 1, .node boundary capacity points nw ne sw se, p =>
    if !boundary.contains p then
      .ok (false, .node boundary capacity points nw ne sw se)
    else if nw.isNull && sizeLtCapacity points.length capacity then
      .ok (true, .node boundary capacity (points ++ [p]) nw ne sw se)
    else
      match (if nw.isNull then (QuadTree.node boundary capacity points nw ne sw se).subdivide ρ
             else .node boundary capacity points nw ne sw se) with
      | .null => .error .nullDeref
      | .node boundary capacity points nw ne sw se =>
        match insertSpecFuel ρ fuel nw p with
        | .error e => .error e
        | .ok (true, nw) => .ok (true, .node boundary capacity points nw ne sw se)
        | .ok (false, nw) =>
          match insertSpecFuel ρ fuel ne p with
          | .error e => .error e
          | .ok (true, ne) => .ok (true, .node boundary capacity points nw ne sw se)
          | .ok (false, ne) =>
            match insertSpecFuel ρ fuel sw p with
            | .error e => .error e
            | .ok (true, sw) => .ok (true, .node boundary capacity points nw ne sw se)
            | .ok (false, sw) =>
              match insertSpecFuel ρ fuel se p with
              | .error e => .error e
              | .ok (true, se) => .ok (true, .node boundary capacity points nw ne sw se)
              | .ok (false, se) => .ok (false, .node boundary capacity points nw ne sw se)

/-- Shape invariant of the trees built by `insert` with capacity `c`: every
node has capacity `c`, every point stored at or below it is contained in its
boundary, its buffer holds no more points than the capacity, and it is either
a leaf with four null children or has a full buffer and four children over its
quadrants. -/
def QuadTree.WF (ρ : Rounding) (c : Int) : QuadTree → Prop
  | .null => False
  | .node b cap pts nw ne sw se =>
    cap = c ∧
    (∀ q ∈ pts ++ (nw.allPoints ++ (ne.allPoints ++ (sw.allPoints ++ se.allPoints))),
      b.contains q = true) ∧
    (pts.length : Int) ≤ cap % 2 ^ 64 ∧
    ((nw = .null ∧ ne = .null ∧ sw = .null ∧ se = .null) ∨
     (sizeLtCapacity pts.length cap = false ∧
      nw.boxOf = some (b.nwBox ρ) ∧ ne.boxOf = some (b.neBox ρ) ∧
      sw.boxOf = some (b.swBox ρ) ∧ se.boxOf = some (b.seBox ρ) ∧
      WF ρ c nw ∧ WF ρ c ne ∧ WF ρ c sw ∧ WF ρ c se))

/-- Trees reachable from `QuadTree(R, c)` by calls of `insert` that return. -/
inductive Reachable (ρ : Rounding) (R : BoundingBox) (c : Int) : QuadTree → Prop where
  | fresh : Reachable ρ R c (QuadTree.new R c)
  | insert (fuel : Nat) (t : QuadTree) (p : Point) (r : Bool) (t' : QuadTree) :
      Reachable ρ R c t → t.insertFuel ρ fuel p = .ok (r, t') → Reachable ρ R c t'

/-- A caller feeding points to `insert` one at a time, as the loop of lines
109-111 does, each call with call depth `fuel`: the flags returned, in order,
and the final tree. -/
def QuadTree.insertAll (ρ : Rounding) (fuel : Nat) :
    QuadTree → List Point → Except Err (List Bool × QuadTree)
  | t, [] => .ok ([], t)
  | t, p :: ps =>
    match t.insertFuel ρ fuel p with
    | .error e => .error e
    | .ok (r, t') =>
      match insertAll ρ fuel t' ps with
      | .error e => .error e
      | .ok (rs, t'') => .ok (r :: rs, t'')

/-- The points of `ps` whose `insert` call returned `true`, given the list of
returned flags. -/
def accepted : List Point → List Bool → List Point
  | p :: ps, r :: rs => if r then p :: accepted ps rs else accepted ps rs
  | _, _ => []

/-- What a returned call `insert(p)` on a well-shaped tree guarantees.  The
flag is `true` only for a point of the boundary, and then exactly one copy of
the point has been added; a call that returns `false` adds no point.  When no
axis of the boundary runs from minus to plus infinity the flag is the
containment test and a `false` call leaves the tree as it was. -/
def InsertPost (ρ : Rounding) (c : Int) (t : QuadTree) (p : Point) (r : Bool)
    (t' : QuadTree) : Prop :=
  t'.WF ρ c ∧ t'.boxOf = t.boxOf ∧
  (∀ B, t.boxOf = some B →
    (r = true → B.contains p = true) ∧ (B.NoFullAxis → r = B.contains p)) ∧
  (r = false → t'.allPoints = t.allPoints ∧
    ∀ B, t.boxOf = some B → B.NoFullAxis → t' = t) ∧
  (r = true → t'.allPoints.Perm (p :: t.allPoints))

/-! ## Concrete values for the examples -/

/-- The point with finite coordinates `x` and `y`. -/
def pt (x y : ℚ) : Point := ⟨.fin x, .fin y⟩

/-- The box with finite corners `(x1, y1)` and `(x2, y2)`. -/
def box (x1 y1 x2 y2 : ℚ) : BoundingBox := ⟨.fin x1, .fin y1, .fin x2, .fin y2⟩

/-- The box whose two axes run from minus infinity to plus infinity. -/
def wholePlane : BoundingBox := ⟨.ninf, .ninf, .pinf, .pinf⟩

/-- A rounding that leaves every result below the overflow threshold of
`double` (`2 ^ 1024 - 2 ^ 970` in magnitude) as it is and sends the others to
the infinity of their sign.  On every result that is itself a finite `double`,
and on every result at or beyond the threshold, it is IEEE 754 rounding to
nearest. -/
def rangeRounding : Rounding where
  rnd q :=
    if q ≥ 2 ^ 1024 - 2 ^ 970 then .pinf
    else if q ≤ -(2 ^ 1024 - 2 ^ 970) then .ninf
    else .fin q
  not_nan q := by
    beta_reduce
    split_ifs <;> simp

/-- The root boundary of the worked example of the specification. -/
def exampleBox : BoundingBox := box 0 0 100 100

/-- The NW child of `exampleTree`. -/
def exampleNW : QuadTree := .node (box 0 0 50 50) 1 [pt 20 20] .null .null .null .null

/-- The NE child of `exampleTree`. -/
def exampleNE : QuadTree := QuadTree.new (box 50 0 100 50) 1

/-- The SW child of `exampleTree`. -/
def exampleSW : QuadTree := QuadTree.new (box 0 50 50 100) 1

/-- The SE child of `exampleTree`. -/
def exampleSE : QuadTree := .node (box 50 50 100 100) 1 [pt 90 90] .null .null .null .null

/-- The tree of the worked example after inserting `(10,10)`, `(20,20)` and
`(90,90)` with capacity 1. -/
def exampleTree : QuadTree :=
  .node exampleBox 1 [pt 10 10] exampleNW exampleNE exampleSW exampleSE

/-- The tree of the worked example before `(90,90)` is inserted. -/
def exampleTreeTwo : QuadTree :=
  .node exampleBox 1 [pt 10 10] exampleNW exampleNE exampleSW
    (QuadTree.new (box 50 50 100 100) 1)

/-- The NW child of `exampleTree` after the call `insert((50,50))`: it has been
subdivided and the point is in its SE child. -/
def exampleNWAfter : QuadTree :=
  .node (box 0 0 50 50) 1 [pt 20 20]
    (QuadTree.new (box 0 0 25 25) 1) (QuadTree.new (box 25 0 50 25) 1)
    (QuadTree.new (box 0 25 25 50) 1)
    (.node (box 25 25 50 50) 1 [pt 50 50] .null .null .null .null)

/-- The whole plane as a root with capacity 1 after `(1,1)` has been
inserted: a full leaf. -/
def planeLeaf : QuadTree := .node wholePlane 1 [pt 1 1] .null .null .null .null

/-- The tree `planeLeaf` after the call `insert((2,2))`: the root has been
subdivided, every child boundary has NaN midpoints as corners, and the point
is stored nowhere. -/
def planeSplit : QuadTree :=
  .node wholePlane 1 [pt 1 1]
    (QuadTree.new ⟨.ninf, .ninf, .nan, .nan⟩ 1)
    (QuadTree.new ⟨.nan, .ninf, .pinf, .nan⟩ 1)
    (QuadTree.new ⟨.ninf, .nan, .nan, .pinf⟩ 1)
    (QuadTree.new ⟨.nan, .nan, .pinf, .pinf⟩ 1)

open QuadTree

/-! ## Order and midpoints on `double`s -/

theorem dle_ne_nan {a b : Dbl} (h : Dbl.le a b = true) : a ≠ .nan ∧ b ≠ .nan := by
  cases a <;> cases b <;> simp_all [Dbl.le]

theorem dle_trans {a b c : Dbl} (h1 : Dbl.le a b = true) (h2 : Dbl.le b c = true) :
    Dbl.le a c = true := by
  cases a <;> cases b <;> cases c <;> simp_all [Dbl.le]
  exact le_trans h1 h2

theorem dle_refl {a : Dbl} (h : a ≠ .nan) : Dbl.le a a = true := by
  cases a <;> simp_all [Dbl.le]

theorem dle_total {a b : Dbl} (ha : a ≠ .nan) (hb : b ≠ .nan) :
    Dbl.le a b = true ∨ Dbl.le b a = true := by
  cases a <;> cases b <;> simp_all [Dbl.le]
  exact le_total _ _

theorem dlt_not_le {a b : Dbl} (h : Dbl.lt a b = true) : Dbl.le b a = false := by
  cases a <;> cases b <;> simp_all [Dbl.le, Dbl.lt]

theorem half_ne_nan (ρ : Rounding) {a : Dbl} (h : a ≠ .nan) : Dbl.half ρ a ≠ .nan := by
  cases a with
  | nan => exact absurd rfl h
  | ninf => simp [Dbl.half]
  | pinf => simp [Dbl.half]
  | fin q => simpa [Dbl.half] using ρ.not_nan (q / 2)

theorem mid_ne_nan (ρ : Rounding) {a b : Dbl} (h : Dbl.le a b = true)
    (hf : ¬ (a = .ninf ∧ b = .pinf)) : Dbl.mid ρ a b ≠ .nan := by
  unfold Dbl.mid
  apply half_ne_nan
  cases a <;> cases b <;> simp_all [Dbl.le, Dbl.add]
  exact ρ.not_nan _

theorem mid_ninf_ne_pinf (ρ : Rounding) (b : Dbl) : Dbl.mid ρ .ninf b ≠ .pinf := by
  cases b <;> simp [Dbl.mid, Dbl.add, Dbl.half]

theorem mid_pinf_ne_ninf (ρ : Rounding) (a : Dbl) : Dbl.mid ρ a .pinf ≠ .ninf := by
  cases a <;> simp [Dbl.mid, Dbl.add, Dbl.half]

/-! ## Boxes -/

theorem contains_iff (b : BoundingBox) (p : Point) :
    b.contains p = true ↔
      Dbl.le b.x1 p.x = true ∧ Dbl.le p.x b.x2 = true ∧
      Dbl.le b.y1 p.y = true ∧ Dbl.le p.y b.y2 = true := by
  simp [BoundingBox.contains, Dbl.ge, and_assoc]

theorem quadrant_cover_fwd (ρ : Rounding) (b : BoundingBox) (p : Point)
    (hg : b.NoFullAxis) (h : b.contains p = true) :
    (b.nwBox ρ).contains p = true ∨ (b.neBox ρ).contains p = true ∨
    (b.swBox ρ).contains p = true ∨ (b.seBox ρ).contains p = true := by
  simp only [contains_iff, BoundingBox.nwBox, BoundingBox.neBox, BoundingBox.swBox,
    BoundingBox.seBox] at h ⊢
  obtain ⟨h1, h2, h3, h4⟩ := h
  have mx := mid_ne_nan ρ (dle_trans h1 h2) hg.1
  have my := mid_ne_nan ρ (dle_trans h3 h4) hg.2
  rcases dle_total (dle_ne_nan h1).2 mx with hx | hx <;>
  rcases dle_total (dle_ne_nan h3).2 my with hy | hy
  · exact Or.inl ⟨h1, hx, h3, hy⟩
  · exact Or.inr (Or.inr (Or.inl ⟨h1, hx, hy, h4⟩))
  · exact Or.inr (Or.inl ⟨hx, h2, h3, hy⟩)
  · exact Or.inr (Or.inr (Or.inr ⟨hx, h2, hy, h4⟩))

theorem noFullAxis_nwBox (ρ : Rounding) (b : BoundingBox) : (b.nwBox ρ).NoFullAxis := by
  refine ⟨?_, ?_⟩ <;> rintro ⟨h1, h2⟩ <;> simp only [BoundingBox.nwBox] at h1 h2 <;>
    rw [h1] at h2 <;> exact mid_ninf_ne_pinf ρ _ h2

theorem noFullAxis_neBox (ρ : Rounding) (b : BoundingBox) : (b.neBox ρ).NoFullAxis := by
  refine ⟨?_, ?_⟩ <;> rintro ⟨h1, h2⟩ <;> simp only [BoundingBox.neBox] at h1 h2
  · rw [h2] at h1; exact mid_pinf_ne_ninf ρ _ h1
  · rw [h1] at h2; exact mid_ninf_ne_pinf ρ _ h2

theorem noFullAxis_swBox (ρ : Rounding) (b : BoundingBox) : (b.swBox ρ).NoFullAxis := by
  refine ⟨?_, ?_⟩ <;> rintro ⟨h1, h2⟩ <;> simp only [BoundingBox.swBox] at h1 h2
  · rw [h1] at h2; exact mid_ninf_ne_pinf ρ _ h2
  · rw [h2] at h1; exact mid_pinf_ne_ninf ρ _ h1

theorem noFullAxis_seBox (ρ : Rounding) (b : BoundingBox) : (b.seBox ρ).NoFullAxis := by
  refine ⟨?_, ?_⟩ <;> rintro ⟨h1, h2⟩ <;> simp only [BoundingBox.seBox] at h1 h2 <;>
    rw [h2] at h1 <;> exact mid_pinf_ne_ninf ρ _ h1

theorem not_intersects_disjoint (b range : BoundingBox) (q : Point)
    (hi : b.intersects range = false) (hq : b.contains q = true) :
    range.contains q = false := by
  cases hr : range.contains q with
  | false => rfl
  | true =>
    rw [contains_iff] at hq hr
    obtain ⟨g1, g2, g3, g4⟩ := hq
    obtain ⟨h1, h2, h3, h4⟩ := hr
    simp only [BoundingBox.intersects, Dbl.gt, Bool.not_eq_false_eq_eq_true, Bool.or_eq_true] at hi
    rcases hi with ((hi | hi) | hi) | hi
    · have := dlt_not_le hi
      rw [dle_trans h1 g2] at this; exact absurd this (by simp)
    · have := dlt_not_le hi
      rw [dle_trans g1 h2] at this; exact absurd this (by simp)
    · have := dlt_not_le hi
      rw [dle_trans h3 g4] at this; exact absurd this (by simp)
    · have := dlt_not_le hi
      rw [dle_trans g3 h4] at this; exact absurd this (by simp)

theorem quadrant_cover_exact (x1 y1 x2 y2 : ℚ) (p : Point) :
    (box x1 y1 x2 y2).contains p = true ↔
      (BoundingBox.contains ⟨.fin x1, .fin y1, .fin ((x1 + x2) / 2), .fin ((y1 + y2) / 2)⟩ p
          = true ∨
       BoundingBox.contains ⟨.fin ((x1 + x2) / 2), .fin y1, .fin x2, .fin ((y1 + y2) / 2)⟩ p
          = true ∨
       BoundingBox.contains ⟨.fin x1, .fin ((y1 + y2) / 2), .fin ((x1 + x2) / 2), .fin y2⟩ p
          = true ∨
       BoundingBox.contains ⟨.fin ((x1 + x2) / 2), .fin ((y1 + y2) / 2), .fin x2, .fin y2⟩ p
          = true) := by
  obtain ⟨px, py⟩ := p
  simp only [contains_iff, box]
  cases px <;> cases py <;> simp only [Dbl.le, Bool.false_eq_true, false_and, and_false,
    or_self, decide_eq_true_eq]
  rename_i a c
  constructor
  · rintro ⟨h1, h2, h3, h4⟩
    rcases le_total a ((x1 + x2) / 2) with hx | hx <;>
    rcases le_total c ((y1 + y2) / 2) with hy | hy
    · exact Or.inl ⟨h1, hx, h3, hy⟩
    · exact Or.inr (Or.inr (Or.inl ⟨h1, hx, hy, h4⟩))
    · exact Or.inr (Or.inl ⟨hx, h2, h3, hy⟩)
    · exact Or.inr (Or.inr (Or.inr ⟨hx, h2, hy, h4⟩))
  · rintro (⟨h1, h2, h3, h4⟩ | ⟨h1, h2, h3, h4⟩ | ⟨h1, h2, h3, h4⟩ | ⟨h1, h2, h3, h4⟩) <;>
    refine ⟨?_, ?_, ?_, ?_⟩ <;> linarith

/-! ## One call of `insert` -/

theorem insertFuel_reject (ρ : Rounding) (n : Nat) (b : BoundingBox) (c : Int)
    (pts : List Point) (nw ne sw se : QuadTree) (p : Point) (h : b.contains p = false) :
    insertFuel ρ (n + 1) (.node b c pts nw ne sw se) p =
      .ok (false, .node b c pts nw ne sw se) := by
  simp [insertFuel, h]

theorem insertFuel_append (ρ : Rounding) (n : Nat) (b : BoundingBox) (c : Int)
    (pts : List Point) (nw ne sw se : QuadTree) (p : Point) (h : b.contains p = true)
    (hs : sizeLtCapacity pts.length c = true) :
    insertFuel ρ (n + 1) (.node b c pts nw ne sw se) p =
      .ok (true, .node b c (pts ++ [p]) nw ne sw se) := by
  simp [insertFuel, h, hs]

theorem insertFuel_leaf_full (ρ : Rounding) (n : Nat) (b : BoundingBox) (c : Int)
    (pts : List Point) (ne sw se : QuadTree) (p : Point) (h : b.contains p = true)
    (hs : sizeLtCapacity pts.length c = false) :
    insertFuel ρ (n + 1) (.node b c pts .null ne sw se) p =
      descend ρ n b c pts (QuadTree.new (b.nwBox ρ) c) (QuadTree.new (b.neBox ρ) c)
        (QuadTree.new (b.swBox ρ) c) (QuadTree.new (b.seBox ρ) c) p := by
  simp [insertFuel, h, hs, isNull, subdivide, descend, BoundingBox.nwBox, BoundingBox.neBox,
    BoundingBox.swBox, BoundingBox.seBox, Dbl.mid]

theorem insertFuel_inner (ρ : Rounding) (n : Nat) (b : BoundingBox) (c : Int)
    (pts : List Point) (nw ne sw se : QuadTree) (p : Point) (h : b.contains p = true)
    (hs : sizeLtCapacity pts.length c = false) (hn : nw.isNull = false) :
    insertFuel ρ (n + 1) (.node b c pts nw ne sw se) p =
      descend ρ n b c pts nw ne sw se p := by
  simp [insertFuel, h, hs, hn, descend]

theorem insertFuel_new (ρ : Rounding) (n : Nat) (b : BoundingBox) (c : Int) (p : Point)
    (hc : 0 < c % 2 ^ 64) :
    insertFuel ρ (n + 1) (QuadTree.new b c) p =
      .ok (b.contains p, if b.contains p then .node b c [p] .null .null .null .null
                         else QuadTree.new b c) := by
  cases h : b.contains p
  · simpa [QuadTree.new] using insertFuel_reject ρ n b c [] .null .null .null .null p h
  · have hs : sizeLtCapacity ([] : List Point).length c = true := by
      simp only [sizeLtCapacity, List.length_nil, Nat.cast_zero, decide_eq_true_eq]
      exact hc
    simpa [QuadTree.new] using insertFuel_append ρ n b c [] .null .null .null .null p h hs

theorem perm_shift {p : Point} {X Y : List Point} (L : List Point) (h : X.Perm (p :: Y)) :
    (L ++ X).Perm (p :: (L ++ Y)) :=
  (List.Perm.append_left L h).trans List.perm_middle

theorem perm_head {p : Point} {X Y : List Point} (R : List Point) (h : X.Perm (p :: Y)) :
    (X ++ R).Perm (p :: (Y ++ R)) :=
  List.Perm.append_right R h

theorem not_perm_cons_self (p : Point) (l : List Point) : ¬ l.Perm (p :: l) := by
  intro h
  have := h.length_eq
  simp at this

theorem WF_new (ρ : Rounding) (b : BoundingBox) (c : Int) (hc : 0 ≤ c % 2 ^ 64) :
    (QuadTree.new b c).WF ρ c := by
  simpa [QuadTree.new, WF, allPoints] using hc

theorem isNull_of_boxOf {t : QuadTree} {b : BoundingBox} (h : t.boxOf = some b) :
    t.isNull = false := by
  cases t <;> simp_all [boxOf, isNull]

theorem isNull_of_WF {ρ : Rounding} {c : Int} {t : QuadTree} (h : t.WF ρ c) :
    t.isNull = false := by
  cases t with
  | null => exact absurd h (by simp [WF])
  | node _ _ _ _ _ _ _ => rfl

theorem descend_ok_cases (ρ : Rounding) (n : Nat) (b : BoundingBox) (cap : Int)
    (pts : List Point) (k1 k2 k3 k4 : QuadTree) (p : Point) (r : Bool) (t' : QuadTree)
    (h : descend ρ n b cap pts k1 k2 k3 k4 p = .ok (r, t')) :
    (∃ j1, insertFuel ρ n k1 p = .ok (true, j1) ∧ r = true ∧
      t' = .node b cap pts j1 k2 k3 k4) ∨
    (∃ j1 j2, insertFuel ρ n k1 p = .ok (false, j1) ∧ insertFuel ρ n k2 p = .ok (true, j2) ∧
      r = true ∧ t' = .node b cap pts j1 j2 k3 k4) ∨
    (∃ j1 j2 j3, insertFuel ρ n k1 p = .ok (false, j1) ∧
      insertFuel ρ n k2 p = .ok (false, j2) ∧
      insertFuel ρ n k3 p = .ok (true, j3) ∧ r = true ∧ t' = .node b cap pts j1 j2 j3 k4) ∨
    (∃ j1 j2 j3 j4, insertFuel ρ n k1 p = .ok (false, j1) ∧
      insertFuel ρ n k2 p = .ok (false, j2) ∧
      insertFuel ρ n k3 p = .ok (false, j3) ∧ insertFuel ρ n k4 p = .ok (r, j4) ∧
      t' = .node b cap pts j1 j2 j3 j4) := by
  unfold descend at h
  cases h1 : insertFuel ρ n k1 p with
  | error e => simp [h1] at h
  | ok x1 =>
    obtain ⟨r1, j1⟩ := x1
    cases r1 with
    | true =>
      simp only [h1, Except.ok.injEq, Prod.mk.injEq] at h
      exact Or.inl ⟨j1, rfl, h.1.symm, h.2.symm⟩
    | false =>
      cases h2 : insertFuel ρ n k2 p with
      | error e => simp [h1, h2] at h
      | ok x2 =>
        obtain ⟨r2, j2⟩ := x2
        cases r2 with
        | true =>
          simp only [h1, h2, Except.ok.injEq, Prod.mk.injEq] at h
          exact Or.inr (Or.inl ⟨j1, j2, rfl, rfl, h.1.symm, h.2.symm⟩)
        | false =>
          cases h3 : insertFuel ρ n k3 p with
          | error e => simp [h1, h2, h3] at h
          | ok x3 =>
            obtain ⟨r3, j3⟩ := x3
            cases r3 with
            | true =>
              simp only [h1, h2, h3, Except.ok.injEq, Prod.mk.injEq] at h
              exact Or.inr (Or.inr (Or.inl ⟨j1, j2, j3, rfl, rfl, rfl, h.1.symm, h.2.symm⟩))
            | false =>
              cases h4 : insertFuel ρ n k4 p with
              | error e => simp [h1, h2, h3, h4] at h
              | ok x4 =>
                obtain ⟨r4, j4⟩ := x4
                refine Or.inr (Or.inr (Or.inr ⟨j1, j2, j3, j4, rfl, rfl, rfl, ?_⟩))
                cases r4 <;>
                · simp only [h1, h2, h3, h4, Except.ok.injEq, Prod.mk.injEq] at h
                  obtain ⟨rfl, rfl⟩ := h
                  exact ⟨rfl, rfl⟩

/-- The cascade on four well-shaped children over the quadrants of `b`, given
what a returned call guarantees on each of them: either the first child whose
quadrant contains `p` took the point and the others are as they were, or no
quadrant contains `p` and nothing changed. -/
theorem descend_cases (ρ : Rounding) (c : Int) (p : Point) (n : Nat)
    (IH : ∀ t r t', WF ρ c t → insertFuel ρ n t p = .ok (r, t') → InsertPost ρ c t p r t')
    (b : BoundingBox) (cap : Int) (pts : List Point) (k1 k2 k3 k4 : QuadTree)
    (b1 : k1.boxOf = some (b.nwBox ρ)) (b2 : k2.boxOf = some (b.neBox ρ))
    (b3 : k3.boxOf = some (b.swBox ρ)) (b4 : k4.boxOf = some (b.seBox ρ))
    (w1 : k1.WF ρ c) (w2 : k2.WF ρ c) (w3 : k3.WF ρ c) (w4 : k4.WF ρ c)
    (r : Bool) (t' : QuadTree)
    (h : descend ρ n b cap pts k1 k2 k3 k4 p = .ok (r, t')) :
    (r = true ∧
      (((b.nwBox ρ).contains p = true ∧
          ∃ j, insertFuel ρ n k1 p = .ok (true, j) ∧ t' = .node b cap pts j k2 k3 k4) ∨
       ((b.nwBox ρ).contains p = false ∧ (b.neBox ρ).contains p = true ∧
          ∃ j, insertFuel ρ n k2 p = .ok (true, j) ∧ t' = .node b cap pts k1 j k3 k4) ∨
       ((b.nwBox ρ).contains p = false ∧ (b.neBox ρ).contains p = false ∧
          (b.swBox ρ).contains p = true ∧
          ∃ j, insertFuel ρ n k3 p = .ok (true, j) ∧ t' = .node b cap pts k1 k2 j k4) ∨
       ((b.nwBox ρ).contains p = false ∧ (b.neBox ρ).contains p = false ∧
          (b.swBox ρ).contains p = false ∧ (b.seBox ρ).contains p = true ∧
          ∃ j, insertFuel ρ n k4 p = .ok (true, j) ∧ t' = .node b cap pts k1 k2 k3 j))) ∨
    (r = false ∧ t' = .node b cap pts k1 k2 k3 k4 ∧
      (b.nwBox ρ).contains p = false ∧ (b.neBox ρ).contains p = false ∧
      (b.swBox ρ).contains p = false ∧ (b.seBox ρ).contains p = false) := by
  have key : ∀ (k : QuadTree) (B : BoundingBox) (x : Bool) (j : QuadTree),
      k.WF ρ c → k.boxOf = some B → B.NoFullAxis → insertFuel ρ n k p = .ok (x, j) →
      x = B.contains p ∧ (x = false → j = k) := by
    intro k B x j w e g hk
    obtain ⟨-, -, hc, hf, -⟩ := IH k x j w hk
    exact ⟨(hc B e).2 g, fun hx => (hf hx).2 B e g⟩
  have g1 := noFullAxis_nwBox ρ b
  have g2 := noFullAxis_neBox ρ b
  have g3 := noFullAxis_swBox ρ b
  have g4 := noFullAxis_seBox ρ b
  rcases descend_ok_cases ρ n b cap pts k1 k2 k3 k4 p r t' h with
    ⟨j1, h1, rfl, rfl⟩ | ⟨j1, j2, h1, h2, rfl, rfl⟩ | ⟨j1, j2, j3, h1, h2, h3, rfl, rfl⟩ |
    ⟨j1, j2, j3, j4, h1, h2, h3, h4, rfl⟩
  · exact Or.inl ⟨rfl, Or.inl ⟨(key _ _ _ _ w1 b1 g1 h1).1.symm, j1, h1, rfl⟩⟩
  · obtain ⟨c1, f1⟩ := key _ _ _ _ w1 b1 g1 h1
    obtain rfl := f1 rfl
    exact Or.inl ⟨rfl, Or.inr (Or.inl ⟨c1.symm, (key _ _ _ _ w2 b2 g2 h2).1.symm, j2, h2, rfl⟩)⟩
  · obtain ⟨c1, f1⟩ := key _ _ _ _ w1 b1 g1 h1
    obtain rfl := f1 rfl
    obtain ⟨c2, f2⟩ := key _ _ _ _ w2 b2 g2 h2
    obtain rfl := f2 rfl
    exact Or.inl ⟨rfl, Or.inr (Or.inr (Or.inl
      ⟨c1.symm, c2.symm, (key _ _ _ _ w3 b3 g3 h3).1.symm, j3, h3, rfl⟩))⟩
  · obtain ⟨c1, f1⟩ := key _ _ _ _ w1 b1 g1 h1
    obtain rfl := f1 rfl
    obtain ⟨c2, f2⟩ := key _ _ _ _ w2 b2 g2 h2
    obtain rfl := f2 rfl
    obtain ⟨c3, f3⟩ := key _ _ _ _ w3 b3 g3 h3
    obtain rfl := f3 rfl
    obtain ⟨c4, f4⟩ := key _ _ _ _ w4 b4 g4 h4
    cases r with
    | true =>
      exact Or.inl ⟨rfl, Or.inr (Or.inr (Or.inr
        ⟨c1.symm, c2.symm, c3.symm, c4.symm, j4, h4, rfl⟩))⟩
    | false =>
      obtain rfl := f4 rfl
      exact Or.inr ⟨rfl, rfl, c1.symm, c2.symm, c3.symm, c4.symm⟩

theorem insertFuel_spec (ρ : Rounding) (c : Int) (p : Point) :
    ∀ (n : Nat) (t : QuadTree) (r : Bool) (t' : QuadTree),
      t.WF ρ c → insertFuel ρ n t p = .ok (r, t') → InsertPost ρ c t p r t' := by
  intro n
  induction n with
  | zero => intro t r t' _ h; simp [insertFuel] at h
  | succ n IH =>
    intro t r t' hwf h
    cases t with
    | null => exact absurd hwf (by simp [WF])
    | node b cap pts nw ne sw se =>
      have hwf0 := hwf
      simp only [WF] at hwf
      obtain ⟨hcap, hall, hlen, hkids⟩ := hwf
      cases hb : b.contains p with
      | false =>
        rw [insertFuel_reject _ _ _ _ _ _ _ _ _ _ hb] at h
        simp only [Except.ok.injEq, Prod.mk.injEq] at h
        obtain ⟨rfl, rfl⟩ := h
        refine ⟨hwf0, rfl, ?_, fun _ => ⟨rfl, fun _ _ _ => rfl⟩, fun h => absurd h (by simp)⟩
        intro B hB
        simp only [boxOf, Option.some.injEq] at hB
        subst hB
        exact ⟨fun h => absurd h (by simp), fun _ => hb.symm⟩
      | true =>
        cases hs : sizeLtCapacity pts.length cap with
        | true =>
          rw [insertFuel_append _ _ _ _ _ _ _ _ _ _ hb hs] at h
          simp only [Except.ok.injEq, Prod.mk.injEq] at h
          obtain ⟨rfl, rfl⟩ := h
          refine ⟨?_, rfl, ?_, fun h => absurd h (by simp), fun _ => ?_⟩
          · simp only [WF]
            refine ⟨hcap, ?_, ?_, ?_⟩
            · intro q hq
              simp only [List.append_assoc, List.mem_append, List.mem_singleton] at hq
              rcases hq with hq | rfl | hq
              · exact hall q (List.mem_append.mpr (Or.inl hq))
              · exact hb
              · exact hall q (List.mem_append.mpr (Or.inr (by
                  simpa only [List.mem_append] using hq)))
            · simp only [sizeLtCapacity, decide_eq_true_eq] at hs
              simp only [List.length_append, List.length_singleton, Nat.cast_add, Nat.cast_one]
              omega
            · rcases hkids with hk | hk
              · exact Or.inl hk
              · rw [hk.1] at hs; exact absurd hs (by simp)
          · intro B hB
            simp only [boxOf, Option.some.injEq] at hB
            subst hB
            exact ⟨fun _ => hb, fun _ => hb.symm⟩
          · simp only [allPoints]
            rw [List.append_assoc, List.singleton_append]
            exact List.perm_middle
        | false =>
          have key : ∀ k1 k2 k3 k4 : QuadTree,
              k1.boxOf = some (b.nwBox ρ) → k2.boxOf = some (b.neBox ρ) →
              k3.boxOf = some (b.swBox ρ) → k4.boxOf = some (b.seBox ρ) →
              k1.WF ρ c → k2.WF ρ c → k3.WF ρ c → k4.WF ρ c →
              (nw.allPoints ++ (ne.allPoints ++ (sw.allPoints ++ se.allPoints))) =
                (k1.allPoints ++ (k2.allPoints ++ (k3.allPoints ++ k4.allPoints))) →
              descend ρ n b cap pts k1 k2 k3 k4 p = .ok (r, t') →
              InsertPost ρ c (.node b cap pts nw ne sw se) p r t' := by
            intro k1 k2 k3 k4 b1 b2 b3 b4 w1 w2 w3 w4 hall' hd
            have fin : ∀ j1 j2 j3 j4 : QuadTree,
                j1.WF ρ c → j2.WF ρ c → j3.WF ρ c → j4.WF ρ c →
                j1.boxOf = k1.boxOf → j2.boxOf = k2.boxOf →
                j3.boxOf = k3.boxOf → j4.boxOf = k4.boxOf →
                (j1.allPoints ++ (j2.allPoints ++ (j3.allPoints ++ j4.allPoints))).Perm
                  (p :: (k1.allPoints ++ (k2.allPoints ++ (k3.allPoints ++ k4.allPoints)))) →
                InsertPost ρ c (.node b cap pts nw ne sw se) p true
                  (.node b cap pts j1 j2 j3 j4) := by
              intro j1 j2 j3 j4 v1 v2 v3 v4 e1 e2 e3 e4 hperm
              have hp2 : (QuadTree.node b cap pts j1 j2 j3 j4).allPoints.Perm
                  (p :: (QuadTree.node b cap pts nw ne sw se).allPoints) := by
                simp only [allPoints]
                rw [hall']
                exact perm_shift pts hperm
              refine ⟨?_, rfl, ?_, fun h => absurd h (by simp), fun _ => hp2⟩
              · simp only [WF]
                refine ⟨hcap, ?_, hlen, Or.inr ⟨hs, e1.trans b1, e2.trans b2, e3.trans b3,
                  e4.trans b4, v1, v2, v3, v4⟩⟩
                intro q hq
                have hq' : q ∈ p :: (QuadTree.node b cap pts nw ne sw se).allPoints :=
                  hp2.mem_iff.mp (by simpa only [allPoints] using hq)
                rcases List.mem_cons.mp hq' with rfl | hq'
                · exact hb
                · exact hall q (by simpa only [allPoints] using hq')
              · intro B hB
                simp only [boxOf, Option.some.injEq] at hB
                subst hB
                exact ⟨fun _ => hb, fun _ => hb.symm⟩
            have post : ∀ (k j : QuadTree), k.WF ρ c → insertFuel ρ n k p = .ok (true, j) →
                j.WF ρ c ∧ j.boxOf = k.boxOf ∧ j.allPoints.Perm (p :: k.allPoints) := by
              intro k j w e
              obtain ⟨v, e', -, -, a⟩ := IH k true j w e
              exact ⟨v, e', a rfl⟩
            rcases descend_cases ρ c p n IH b cap pts k1 k2 k3 k4 b1 b2 b3 b4 w1 w2 w3 w4
                r t' hd with ⟨rfl, hc⟩ | ⟨rfl, rfl, c1, c2, c3, c4⟩
            · rcases hc with ⟨-, j, hj, rfl⟩ | ⟨-, -, j, hj, rfl⟩ | ⟨-, -, -, j, hj, rfl⟩ |
                ⟨-, -, -, -, j, hj, rfl⟩
              · obtain ⟨v, e, a⟩ := post _ _ w1 hj
                exact fin _ _ _ _ v w2 w3 w4 e rfl rfl rfl (perm_head _ a)
              · obtain ⟨v, e, a⟩ := post _ _ w2 hj
                exact fin _ _ _ _ w1 v w3 w4 rfl e rfl rfl (perm_shift _ (perm_head _ a))
              · obtain ⟨v, e, a⟩ := post _ _ w3 hj
                exact fin _ _ _ _ w1 w2 v w4 rfl rfl e rfl
                  (perm_shift _ (perm_shift _ (perm_head _ a)))
              · obtain ⟨v, e, a⟩ := post _ _ w4 hj
                exact fin _ _ _ _ w1 w2 w3 v rfl rfl rfl e
                  (perm_shift _ (perm_shift _ (perm_shift _ a)))
            · have hno : ¬ b.NoFullAxis := by
                intro hg
                rcases quadrant_cover_fwd ρ b p hg hb with g | g | g | g
                · rw [g] at c1; exact absurd c1 (by simp)
                · rw [g] at c2; exact absurd c2 (by simp)
                · rw [g] at c3; exact absurd c3 (by simp)
                · rw [g] at c4; exact absurd c4 (by simp)
              refine ⟨?_, rfl, ?_, fun _ => ⟨?_, ?_⟩, fun h => absurd h (by simp)⟩
              · simp only [WF]
                refine ⟨hcap, ?_, hlen, Or.inr ⟨hs, b1, b2, b3, b4, w1, w2, w3, w4⟩⟩
                rw [← hall']
                exact hall
              · intro B hB
                simp only [boxOf, Option.some.injEq] at hB
                subst hB
                exact ⟨fun h => absurd h (by simp), fun hg => absurd hg hno⟩
              · simp only [allPoints]
                rw [hall']
              · intro B hB hg
                simp only [boxOf, Option.some.injEq] at hB
                subst hB
                exact absurd hg hno
          rcases hkids with ⟨rfl, rfl, rfl, rfl⟩ | ⟨_, b1, b2, b3, b4, w1, w2, w3, w4⟩
          · rw [insertFuel_leaf_full _ _ _ _ _ _ _ _ _ hb hs] at h
            have hc0 : 0 ≤ c % 2 ^ 64 := Int.emod_nonneg _ (by norm_num)
            subst hcap
            exact key (QuadTree.new (b.nwBox ρ) cap) (QuadTree.new (b.neBox ρ) cap)
              (QuadTree.new (b.swBox ρ) cap) (QuadTree.new (b.seBox ρ) cap) rfl rfl rfl rfl
              (WF_new _ _ _ hc0) (WF_new _ _ _ hc0) (WF_new _ _ _ hc0) (WF_new _ _ _ hc0)
              (by simp [allPoints, QuadTree.new]) h
          · rw [insertFuel_inner _ _ _ _ _ _ _ _ _ _ hb hs (isNull_of_boxOf b1)] at h
            exact key _ _ _ _ b1 b2 b3 b4 w1 w2 w3 w4 rfl h

/-! ## Termination of `insert`, `queryRange`, reachable trees -/

theorem height_new (b : BoundingBox) (c : Int) : (QuadTree.new b c).height = 1 := by
  simp [QuadTree.new, height]

theorem descend_total (ρ : Rounding) (n : Nat) (b : BoundingBox) (cap : Int)
    (pts : List Point) (k1 k2 k3 k4 : QuadTree) (p : Point) (H : Nat)
    (g2 : k2.height ≤ H) (g3 : k3.height ≤ H) (g4 : k4.height ≤ H)
    (t1 : ∃ r j, insertFuel ρ n k1 p = .ok (r, j) ∧ j.height ≤ H)
    (t2 : ∃ r j, insertFuel ρ n k2 p = .ok (r, j) ∧ j.height ≤ H)
    (t3 : ∃ r j, insertFuel ρ n k3 p = .ok (r, j) ∧ j.height ≤ H)
    (t4 : ∃ r j, insertFuel ρ n k4 p = .ok (r, j) ∧ j.height ≤ H) :
    ∃ r t', descend ρ n b cap pts k1 k2 k3 k4 p = .ok (r, t') ∧ t'.height ≤ 1 + H := by
  obtain ⟨r1, j1, h1, u1⟩ := t1
  obtain ⟨r2, j2, h2, u2⟩ := t2
  obtain ⟨r3, j3, h3, u3⟩ := t3
  obtain ⟨r4, j4, h4, u4⟩ := t4
  unfold descend
  rw [h1]
  cases r1 with
  | true => exact ⟨_, _, rfl, by simp only [height]; omega⟩
  | false =>
    simp only []
    rw [h2]
    cases r2 with
    | true => exact ⟨_, _, rfl, by simp only [height]; omega⟩
    | false =>
      simp only []
      rw [h3]
      cases r3 with
      | true => exact ⟨_, _, rfl, by simp only [height]; omega⟩
      | false =>
        simp only []
        rw [h4]
        cases r4 with
        | true => exact ⟨_, _, rfl, by simp only [height]; omega⟩
        | false => exact ⟨_, _, rfl, by simp only [height]; omega⟩

theorem insertFuel_new_total (ρ : Rounding) (n : Nat) (b : BoundingBox) (c : Int) (p : Point)
    (hc : 0 < c % 2 ^ 64) :
    ∃ r j, insertFuel ρ (n + 1) (QuadTree.new b c) p = .ok (r, j) ∧ j.height ≤ 1 := by
  refine ⟨_, _, insertFuel_new ρ n b c p hc, ?_⟩
  cases b.contains p <;> simp [QuadTree.new, height]

theorem insertFuel_total (ρ : Rounding) (c : Int) (hc : 0 < c % 2 ^ 64) (p : Point) :
    ∀ (n : Nat) (t : QuadTree), t.WF ρ c → t.height + 1 ≤ n →
      ∃ r t', insertFuel ρ n t p = .ok (r, t') ∧ t'.height ≤ t.height + 1 := by
  intro n
  induction n with
  | zero => intro t _ h; omega
  | succ n IH =>
    intro t hwf hn
    cases t with
    | null => exact absurd hwf (by simp [WF])
    | node b cap pts nw ne sw se =>
      simp only [WF] at hwf
      obtain ⟨hcap, -, -, hkids⟩ := hwf
      cases hb : b.contains p with
      | false => exact ⟨_, _, insertFuel_reject _ _ _ _ _ _ _ _ _ _ hb, by omega⟩
      | true =>
        cases hs : sizeLtCapacity pts.length cap with
        | true =>
          exact ⟨_, _, insertFuel_append _ _ _ _ _ _ _ _ _ _ hb hs, by simp only [height]; omega⟩
        | false =>
          rcases hkids with ⟨rfl, rfl, rfl, rfl⟩ | ⟨_, b1, b2, b3, b4, w1, w2, w3, w4⟩
          · rw [insertFuel_leaf_full _ _ _ _ _ _ _ _ _ hb hs]
            simp only [height] at hn ⊢
            obtain ⟨m, rfl⟩ : ∃ m, n = m + 1 := ⟨n - 1, by omega⟩
            subst hcap
            simpa using descend_total ρ (m + 1) b cap pts _ _ _ _ p 1
              (height_new _ _).le (height_new _ _).le (height_new _ _).le
              (insertFuel_new_total ρ m _ _ p hc) (insertFuel_new_total ρ m _ _ p hc)
              (insertFuel_new_total ρ m _ _ p hc) (insertFuel_new_total ρ m _ _ p hc)
          · rw [insertFuel_inner _ _ _ _ _ _ _ _ _ _ hb hs (isNull_of_boxOf b1)]
            simp only [height] at hn ⊢
            have q1 := IH nw w1 (by omega)
            have q2 := IH ne w2 (by omega)
            have q3 := IH sw w3 (by omega)
            have q4 := IH se w4 (by omega)
            have := descend_total ρ n b cap pts nw ne sw se p
              (max (max nw.height ne.height) (max sw.height se.height) + 1)
              (by omega) (by omega) (by omega)
              (by obtain ⟨r, j, e, u⟩ := q1; exact ⟨r, j, e, by omega⟩)
              (by obtain ⟨r, j, e, u⟩ := q2; exact ⟨r, j, e, by omega⟩)
              (by obtain ⟨r, j, e, u⟩ := q3; exact ⟨r, j, e, by omega⟩)
              (by obtain ⟨r, j, e, u⟩ := q4; exact ⟨r, j, e, by omega⟩)
            obtain ⟨r, t', e, u⟩ := this
            exact ⟨r, t', e, by omega⟩

theorem allPoints_in_box (ρ : Rounding) (c : Int) (t : QuadTree) (B : BoundingBox)
    (hwf : t.WF ρ c) (hB : t.boxOf = some B) :
    ∀ q ∈ t.allPoints, B.contains q = true := by
  cases t with
  | null => exact absurd hwf (by simp [WF])
  | node b cap pts nw ne sw se =>
    simp only [boxOf, Option.some.injEq] at hB
    subst hB
    simp only [WF] at hwf
    simpa only [allPoints] using hwf.2.1

theorem queryRange_spec (ρ : Rounding) (c : Int) :
    ∀ (t : QuadTree), t.WF ρ c → ∀ (range : BoundingBox) (res : List Point),
      t.queryRange range res = .ok (res ++ t.allPoints.filter (fun q => range.contains q)) := by
  intro t
  induction t with
  | null => intro h; exact absurd h (by simp [WF])
  | node b cap pts nw ne sw se ih1 ih2 ih3 ih4 =>
    intro hwf range res
    have hin := allPoints_in_box ρ c _ b hwf rfl
    simp only [WF] at hwf
    obtain ⟨-, -, -, hkids⟩ := hwf
    cases hi : b.intersects range with
    | false =>
      have : (QuadTree.node b cap pts nw ne sw se).allPoints.filter
          (fun q => range.contains q) = [] := by
        rw [List.filter_eq_nil_iff]
        intro q hq
        rw [not_intersects_disjoint b range q hi (hin q hq)]
        simp
      rw [this]
      simp [queryRange, hi]
    | true =>
      rcases hkids with ⟨rfl, rfl, rfl, rfl⟩ | ⟨_, b1, b2, b3, b4, w1, w2, w3, w4⟩
      · simp [queryRange, hi, isNull, allPoints]
      · simp [queryRange, hi, isNull_of_boxOf b1, allPoints, ih1 w1, ih2 w2, ih3 w3, ih4 w4]

theorem reachable_WF {ρ : Rounding} {R : BoundingBox} {c : Int} {t : QuadTree}
    (h : Reachable ρ R c t) : t.WF ρ c ∧ t.boxOf = some R := by
  induction h with
  | fresh => exact ⟨WF_new ρ R c (Int.emod_nonneg _ (by norm_num)), rfl⟩
  | insert fuel t p r t' _ hstep ih =>
    obtain ⟨v, e, -, -, -⟩ := insertFuel_spec ρ c p fuel t r t' ih.1 hstep
    exact ⟨v, e.trans ih.2⟩

theorem nodes_WF (ρ : Rounding) (c : Int) :
    ∀ (t : QuadTree), t.WF ρ c → ∀ s ∈ t.nodes, s.WF ρ c := by
  intro t
  induction t with
  | null => intro h; exact absurd h (by simp [WF])
  | node b cap pts nw ne sw se ih1 ih2 ih3 ih4 =>
    intro hwf s hs
    simp only [nodes, List.mem_cons, List.mem_append] at hs
    rcases hs with rfl | hs
    · exact hwf
    · simp only [WF] at hwf
      obtain ⟨-, -, -, hkids⟩ := hwf
      rcases hkids with ⟨rfl, rfl, rfl, rfl⟩ | ⟨_, _, _, _, _, w1, w2, w3, w4⟩
      · simp [nodes] at hs
      · rcases hs with hs | hs | hs | hs
        · exact ih1 w1 s hs
        · exact ih2 w2 s hs
        · exact ih3 w3 s hs
        · exact ih4 w4 s hs

theorem int_capacity_pos {c : Int} (h1 : 1 ≤ c) (h2 : c < 2 ^ 31) : 0 < c % 2 ^ 64 := by
  rw [Int.emod_eq_of_lt (by omega) (by omega)]
  omega

/-! ## Sequences of calls -/

theorem insertAll_spec (ρ : Rounding) (c : Int) (n : Nat) :
    ∀ (ps : List Point) (t : QuadTree) (rs : List Bool) (t' : QuadTree),
      t.WF ρ c → insertAll ρ n t ps = .ok (rs, t') →
      t'.WF ρ c ∧ t'.boxOf = t.boxOf ∧ t'.allPoints.Perm (accepted ps rs ++ t.allPoints) := by
  intro ps
  induction ps with
  | nil =>
    intro t rs t' hwf h
    simp only [insertAll, Except.ok.injEq, Prod.mk.injEq] at h
    obtain ⟨rfl, rfl⟩ := h
    exact ⟨hwf, rfl, by simp [accepted]⟩
  | cons p ps ih =>
    intro t rs t' hwf h
    simp only [insertAll] at h
    cases h1 : insertFuel ρ n t p with
    | error e => simp [h1] at h
    | ok x =>
      obtain ⟨r, t1⟩ := x
      obtain ⟨v, e, -, f, a⟩ := insertFuel_spec ρ c p n t r t1 hwf h1
      cases h2 : insertAll ρ n t1 ps with
      | error e => simp [h1, h2] at h
      | ok y =>
        obtain ⟨rs1, t2⟩ := y
        simp only [h1, h2, Except.ok.injEq, Prod.mk.injEq] at h
        obtain ⟨rfl, rfl⟩ := h
        obtain ⟨v2, e2, a2⟩ := ih t1 rs1 t2 v h2
        refine ⟨v2, e2.trans e, ?_⟩
        cases r with
        | false =>
          rw [(f rfl).1] at a2
          simpa [accepted] using a2
        | true =>
          simp only [accepted, if_true]
          exact a2.trans ((List.Perm.append_left _ (a rfl)).trans List.perm_middle)

theorem insertAll_total (ρ : Rounding) (c : Int) (hc : 0 < c % 2 ^ 64) (n : Nat) :
    ∀ (ps : List Point) (t : QuadTree), t.WF ρ c → t.height + ps.length + 1 ≤ n →
      ∃ rs t', insertAll ρ n t ps = .ok (rs, t') := by
  intro ps
  induction ps with
  | nil => intro t _ _; exact ⟨_, _, rfl⟩
  | cons p ps ih =>
    intro t hwf hn
    simp only [List.length_cons] at hn
    obtain ⟨r, t1, h1, u⟩ := insertFuel_total ρ c hc p n t hwf (by omega)
    obtain ⟨v, -⟩ := insertFuel_spec ρ c p n t r t1 hwf h1
    obtain ⟨rs, t2, h2⟩ := ih t1 v (by omega)
    exact ⟨r :: rs, t2, by simp [insertAll, h1, h2]⟩

theorem insertAll_leaf (ρ : Rounding) (R : BoundingBox) (c : Int) (n : Nat) :
    ∀ (ps pts : List Point), ((pts.length + ps.length : Nat) : Int) ≤ c % 2 ^ 64 →
      insertAll ρ (n + 1) (.node R c pts .null .null .null .null) ps =
        .ok (ps.map (fun q => R.contains q),
          .node R c (pts ++ ps.filter (fun q => R.contains q)) .null .null .null .null) := by
  intro ps
  induction ps with
  | nil => intro pts _; simp [insertAll]
  | cons q ps ih =>
    intro pts hlen
    simp only [List.length_cons] at hlen
    cases hq : R.contains q with
    | false =>
      have := ih pts (by omega)
      simp [insertAll, insertFuel_reject _ _ _ _ _ _ _ _ _ _ hq, this, hq]
    | true =>
      have hs : sizeLtCapacity pts.length c = true := by
        simp only [sizeLtCapacity, decide_eq_true_eq]
        omega
      have := ih (pts ++ [q]) (by simp only [List.length_append, List.length_singleton]; omega)
      simp [insertAll, insertFuel_append _ _ _ _ _ _ _ _ _ _ hq hs, this, hq]

/-! ## Capacity zero, null pointers, the specified test, node counts -/

theorem insertFuel_zero_capacity (ρ : Rounding) (p : Point) :
    ∀ (n : Nat) (b : BoundingBox), b.NoFullAxis →
      insertFuel ρ n (QuadTree.new b 0) p = .error .outOfFuel ∨
      (b.contains p = false ∧
        insertFuel ρ n (QuadTree.new b 0) p = .ok (false, QuadTree.new b 0)) := by
  intro n
  induction n with
  | zero => intro b _; exact Or.inl rfl
  | succ n IH =>
    intro b hg
    cases hb : b.contains p with
    | false =>
      exact Or.inr ⟨rfl, insertFuel_reject ρ n b 0 [] .null .null .null .null p hb⟩
    | true =>
      left
      have hs : sizeLtCapacity ([] : List Point).length 0 = false := by
        simp [sizeLtCapacity]
      have e := insertFuel_leaf_full ρ n b 0 [] .null .null .null p hb hs
      simp only [QuadTree.new] at e ⊢
      rw [e]
      unfold descend
      rcases IH (b.nwBox ρ) (noFullAxis_nwBox ρ b) with h1 | ⟨c1, h1⟩
      · simp only [QuadTree.new] at h1; rw [h1]
      · simp only [QuadTree.new] at h1; rw [h1]
        simp only []
        rcases IH (b.neBox ρ) (noFullAxis_neBox ρ b) with h2 | ⟨c2, h2⟩
        · simp only [QuadTree.new] at h2; rw [h2]
        · simp only [QuadTree.new] at h2; rw [h2]
          simp only []
          rcases IH (b.swBox ρ) (noFullAxis_swBox ρ b) with h3 | ⟨c3, h3⟩
          · simp only [QuadTree.new] at h3; rw [h3]
          · simp only [QuadTree.new] at h3; rw [h3]
            simp only []
            rcases IH (b.seBox ρ) (noFullAxis_seBox ρ b) with h4 | ⟨c4, h4⟩
            · simp only [QuadTree.new] at h4; rw [h4]
            · rcases quadrant_cover_fwd ρ b p hg hb with g | g | g | g
              · rw [g] at c1; exact absurd c1 (by simp)
              · rw [g] at c2; exact absurd c2 (by simp)
              · rw [g] at c3; exact absurd c3 (by simp)
              · rw [g] at c4; exact absurd c4 (by simp)

theorem insertFuel_no_nullDeref (ρ : Rounding) (c : Int) (p : Point) :
    ∀ (n : Nat) (t : QuadTree), t.WF ρ c → insertFuel ρ n t p ≠ .error .nullDeref := by
  intro n
  induction n with
  | zero => intro t _; simp [insertFuel]
  | succ n IH =>
    intro t hwf
    cases t with
    | null => exact absurd hwf (by simp [WF])
    | node b cap pts nw ne sw se =>
      simp only [WF] at hwf
      obtain ⟨hcap, -, -, hkids⟩ := hwf
      have hc0 : 0 ≤ c % 2 ^ 64 := Int.emod_nonneg _ (by norm_num)
      have casc : ∀ k1 k2 k3 k4 : QuadTree, k1.WF ρ c → k2.WF ρ c → k3.WF ρ c → k4.WF ρ c →
          descend ρ n b cap pts k1 k2 k3 k4 p ≠ .error .nullDeref := by
        intro k1 k2 k3 k4 w1 w2 w3 w4
        have i1 := IH k1 w1
        have i2 := IH k2 w2
        have i3 := IH k3 w3
        have i4 := IH k4 w4
        unfold descend
        rcases h1 : insertFuel ρ n k1 p with e1 | ⟨r1, j1⟩
        · rw [h1] at i1; simpa using i1
        cases r1
        swap
        · simp
        rcases h2 : insertFuel ρ n k2 p with e2 | ⟨r2, j2⟩
        · rw [h2] at i2; simpa using i2
        cases r2
        swap
        · simp
        rcases h3 : insertFuel ρ n k3 p with e3 | ⟨r3, j3⟩
        · rw [h3] at i3; simpa using i3
        cases r3
        swap
        · simp
        rcases h4 : insertFuel ρ n k4 p with e4 | ⟨r4, j4⟩
        · rw [h4] at i4; simpa using i4
        cases r4 <;> simp
      cases hb : b.contains p with
      | false => rw [insertFuel_reject _ _ _ _ _ _ _ _ _ _ hb]; simp
      | true =>
        cases hs : sizeLtCapacity pts.length cap with
        | true => rw [insertFuel_append _ _ _ _ _ _ _ _ _ _ hb hs]; simp
        | false =>
          rcases hkids with ⟨rfl, rfl, rfl, rfl⟩ | ⟨_, b1, b2, b3, b4, w1, w2, w3, w4⟩
          · rw [insertFuel_leaf_full _ _ _ _ _ _ _ _ _ hb hs]
            subst hcap
            exact casc _ _ _ _ (WF_new _ _ _ hc0) (WF_new _ _ _ hc0) (WF_new _ _ _ hc0)
              (WF_new _ _ _ hc0)
          · rw [insertFuel_inner _ _ _ _ _ _ _ _ _ _ hb hs (isNull_of_boxOf b1)]
            exact casc _ _ _ _ w1 w2 w3 w4

theorem insertFuel_eq_spec (ρ : Rounding) (c : Int) (p : Point) :
    ∀ (n : Nat) (t : QuadTree), t.WF ρ c → insertFuel ρ n t p = insertSpecFuel ρ n t p := by
  intro n
  induction n with
  | zero => intro t _; simp [insertFuel, insertSpecFuel]
  | succ n IH =>
    intro t hwf
    cases t with
    | null => exact absurd hwf (by simp [WF])
    | node b cap pts nw ne sw se =>
      simp only [WF] at hwf
      obtain ⟨hcap, -, -, hkids⟩ := hwf
      have hc0 : 0 ≤ c % 2 ^ 64 := Int.emod_nonneg _ (by norm_num)
      rcases hkids with ⟨rfl, rfl, rfl, rfl⟩ | ⟨hs, b1, b2, b3, b4, w1, w2, w3, w4⟩
      · subst hcap
        have e1 := IH _ (WF_new ρ (b.nwBox ρ) cap hc0)
        have e2 := IH _ (WF_new ρ (b.neBox ρ) cap hc0)
        have e3 := IH _ (WF_new ρ (b.swBox ρ) cap hc0)
        have e4 := IH _ (WF_new ρ (b.seBox ρ) cap hc0)
        simp only [BoundingBox.nwBox, BoundingBox.neBox, BoundingBox.swBox,
          BoundingBox.seBox, Dbl.mid] at e1 e2 e3 e4
        simp only [insertFuel, insertSpecFuel, isNull, subdivide, Bool.true_and, if_true,
          e1, e2, e3, e4]
      · have hn := isNull_of_boxOf b1
        simp only [insertFuel, insertSpecFuel, hn, hs, Bool.false_and, Bool.false_eq_true,
          if_false]
        rw [IH nw w1, IH ne w2, IH sw w3, IH se w4]

theorem numNodes_new (b : BoundingBox) (c : Int) : (QuadTree.new b c).numNodes = 1 := by
  simp [QuadTree.new, numNodes]

theorem insertFuel_new_numNodes (ρ : Rounding) (n : Nat) (b : BoundingBox) (c : Int)
    (p : Point) (hc : 0 < c % 2 ^ 64) (r : Bool) (j : QuadTree)
    (h : insertFuel ρ n (QuadTree.new b c) p = .ok (r, j)) : j.numNodes = 1 := by
  cases n with
  | zero => simp [insertFuel] at h
  | succ n =>
    rw [insertFuel_new ρ n b c p hc] at h
    simp only [Except.ok.injEq, Prod.mk.injEq] at h
    obtain ⟨-, rfl⟩ := h
    cases b.contains p <;> simp [QuadTree.new, numNodes]

theorem insertFuel_numNodes (ρ : Rounding) (c : Int) (hc : 0 < c % 2 ^ 64) (p : Point) :
    ∀ (n : Nat) (t : QuadTree) (r : Bool) (t' : QuadTree),
      t.WF ρ c → insertFuel ρ n t p = .ok (r, t') →
      t'.numNodes = t.numNodes ∨ t'.numNodes = t.numNodes + 4 := by
  intro n
  induction n with
  | zero => intro t r t' _ h; simp [insertFuel] at h
  | succ n IH =>
    intro t r t' hwf h
    cases t with
    | null => exact absurd hwf (by simp [WF])
    | node b cap pts nw ne sw se =>
      simp only [WF] at hwf
      obtain ⟨hcap, -, -, hkids⟩ := hwf
      have hc0 : 0 ≤ c % 2 ^ 64 := Int.emod_nonneg _ (by norm_num)
      cases hb : b.contains p with
      | false =>
        rw [insertFuel_reject _ _ _ _ _ _ _ _ _ _ hb] at h
        simp only [Except.ok.injEq, Prod.mk.injEq] at h
        obtain ⟨-, rfl⟩ := h
        exact Or.inl rfl
      | true =>
        cases hs : sizeLtCapacity pts.length cap with
        | true =>
          rw [insertFuel_append _ _ _ _ _ _ _ _ _ _ hb hs] at h
          simp only [Except.ok.injEq, Prod.mk.injEq] at h
          obtain ⟨-, rfl⟩ := h
          exact Or.inl (by simp [numNodes])
        | false =>
          rcases hkids with ⟨rfl, rfl, rfl, rfl⟩ | ⟨_, b1, b2, b3, b4, w1, w2, w3, w4⟩
          · rw [insertFuel_leaf_full _ _ _ _ _ _ _ _ _ hb hs] at h
            subst hcap
            right
            rcases descend_cases ρ cap p n (insertFuel_spec ρ cap p n) b cap pts
              (QuadTree.new (b.nwBox ρ) cap) (QuadTree.new (b.neBox ρ) cap)
              (QuadTree.new (b.swBox ρ) cap) (QuadTree.new (b.seBox ρ) cap)
              rfl rfl rfl rfl (WF_new _ _ _ hc0) (WF_new _ _ _ hc0) (WF_new _ _ _ hc0)
              (WF_new _ _ _ hc0) r t' h with ⟨-, hcase⟩ | ⟨-, rfl, -⟩
            · rcases hcase with ⟨-, j, hj, rfl⟩ | ⟨-, -, j, hj, rfl⟩ | ⟨-, -, -, j, hj, rfl⟩ |
                ⟨-, -, -, -, j, hj, rfl⟩ <;>
              · have := insertFuel_new_numNodes ρ n _ cap p hc true j hj
                simp [numNodes, numNodes_new, this]
            · simp [numNodes, numNodes_new]
          · rw [insertFuel_inner _ _ _ _ _ _ _ _ _ _ hb hs (isNull_of_boxOf b1)] at h
            rcases descend_cases ρ c p n (insertFuel_spec ρ c p n) b cap pts _ _ _ _
              b1 b2 b3 b4 w1 w2 w3 w4 r t' h with ⟨-, hcase⟩ | ⟨-, rfl, -⟩
            · rcases hcase with ⟨-, j, hj, rfl⟩ | ⟨-, -, j, hj, rfl⟩ | ⟨-, -, -, j, hj, rfl⟩ |
                ⟨-, -, -, -, j, hj, rfl⟩
              · rcases IH _ _ _ w1 hj with e | e
                · left; simp only [numNodes, e]
                · right; simp only [numNodes, e]; omega
              · rcases IH _ _ _ w2 hj with e | e
                · left; simp only [numNodes, e]
                · right; simp only [numNodes, e]; omega
              · rcases IH _ _ _ w3 hj with e | e
                · left; simp only [numNodes, e]
                · right; simp only [numNodes, e]; omega
              · rcases IH _ _ _ w4 hj with e | e
                · left; simp only [numNodes, e]
                · right; simp only [numNodes, e]; omega
            · exact Or.inl rfl

/-! ## A node that already has children -/

theorem insertFuel_inner_shape (ρ : Rounding) (c : Int) (n : Nat) (b : BoundingBox)
    (cap : Int) (pts : List Point) (nw ne sw se : QuadTree) (p : Point)
    (hwf : (QuadTree.node b cap pts nw ne sw se).WF ρ c) (hk : nw.isNull = false)
    (r : Bool) (t' : QuadTree)
    (h : insertFuel ρ (n + 1) (.node b cap pts nw ne sw se) p = .ok (r, t')) :
    ∃ nw' ne' sw' se', t' = .node b cap pts nw' ne' sw' se' ∧
      nw'.isNull = false ∧ ne'.isNull = false ∧ sw'.isNull = false ∧ se'.isNull = false ∧
      (nw' = nw ∨ ∃ x, insertFuel ρ n nw p = .ok (x, nw')) ∧
      (ne' = ne ∨ ∃ x, insertFuel ρ n ne p = .ok (x, ne')) ∧
      (sw' = sw ∨ ∃ x, insertFuel ρ n sw p = .ok (x, sw')) ∧
      (se' = se ∨ ∃ x, insertFuel ρ n se p = .ok (x, se')) := by
  simp only [WF] at hwf
  obtain ⟨-, -, -, hkids⟩ := hwf
  rcases hkids with ⟨rfl, -, -, -⟩ | ⟨hs, b1, b2, b3, b4, w1, w2, w3, w4⟩
  · simp [isNull] at hk
  have n1 := isNull_of_WF w1
  have n2 := isNull_of_WF w2
  have n3 := isNull_of_WF w3
  have n4 := isNull_of_WF w4
  cases hb : b.contains p with
  | false =>
    rw [insertFuel_reject _ _ _ _ _ _ _ _ _ _ hb] at h
    simp only [Except.ok.injEq, Prod.mk.injEq] at h
    obtain ⟨-, rfl⟩ := h
    exact ⟨nw, ne, sw, se, rfl, n1, n2, n3, n4, Or.inl rfl, Or.inl rfl, Or.inl rfl, Or.inl rfl⟩
  | true =>
    rw [insertFuel_inner _ _ _ _ _ _ _ _ _ _ hb hs hk] at h
    have res : ∀ (k j : QuadTree) (x : Bool), k.WF ρ c → insertFuel ρ n k p = .ok (x, j) →
        j.isNull = false := by
      intro k j x w e
      exact isNull_of_WF (insertFuel_spec ρ c p n k x j w e).1
    rcases descend_ok_cases ρ n b cap pts nw ne sw se p r t' h with
      ⟨j1, h1, -, rfl⟩ | ⟨j1, j2, h1, h2, -, rfl⟩ | ⟨j1, j2, j3, h1, h2, h3, -, rfl⟩ |
      ⟨j1, j2, j3, j4, h1, h2, h3, h4, rfl⟩
    · exact ⟨j1, ne, sw, se, rfl, res _ _ _ w1 h1, n2, n3, n4, Or.inr ⟨_, h1⟩, Or.inl rfl,
        Or.inl rfl, Or.inl rfl⟩
    · exact ⟨j1, j2, sw, se, rfl, res _ _ _ w1 h1, res _ _ _ w2 h2, n3, n4, Or.inr ⟨_, h1⟩,
        Or.inr ⟨_, h2⟩, Or.inl rfl, Or.inl rfl⟩
    · exact ⟨j1, j2, j3, se, rfl, res _ _ _ w1 h1, res _ _ _ w2 h2, res _ _ _ w3 h3, n4,
        Or.inr ⟨_, h1⟩, Or.inr ⟨_, h2⟩, Or.inr ⟨_, h3⟩, Or.inl rfl⟩
    · exact ⟨j1, j2, j3, j4, rfl, res _ _ _ w1 h1, res _ _ _ w2 h2, res _ _ _ w3 h3,
        res _ _ _ w4 h4, Or.inr ⟨_, h1⟩, Or.inr ⟨_, h2⟩, Or.inr ⟨_, h3⟩, Or.inr ⟨_, h4⟩⟩

theorem insertFuel_inner_cases (ρ : Rounding) (c : Int) (n : Nat) (b : BoundingBox)
    (cap : Int) (pts : List Point) (nw ne sw se : QuadTree) (p : Point)
    (hwf : (QuadTree.node b cap pts nw ne sw se).WF ρ c) (hk : nw.isNull = false)
    (hp : b.contains p = true) (r : Bool) (t' : QuadTree)
    (h : insertFuel ρ (n + 1) (.node b cap pts nw ne sw se) p = .ok (r, t')) :
    (nw.WF ρ c ∧ ne.WF ρ c ∧ sw.WF ρ c ∧ se.WF ρ c) ∧
    (nw.boxOf = some (b.nwBox ρ) ∧ ne.boxOf = some (b.neBox ρ) ∧
      sw.boxOf = some (b.swBox ρ) ∧ se.boxOf = some (b.seBox ρ)) ∧
    ((r = true ∧
      (((b.nwBox ρ).contains p = true ∧
          ∃ j, insertFuel ρ n nw p = .ok (true, j) ∧ t' = .node b cap pts j ne sw se) ∨
       ((b.nwBox ρ).contains p = false ∧ (b.neBox ρ).contains p = true ∧
          ∃ j, insertFuel ρ n ne p = .ok (true, j) ∧ t' = .node b cap pts nw j sw se) ∨
       ((b.nwBox ρ).contains p = false ∧ (b.neBox ρ).contains p = false ∧
          (b.swBox ρ).contains p = true ∧
          ∃ j, insertFuel ρ n sw p = .ok (true, j) ∧ t' = .node b cap pts nw ne j se) ∨
       ((b.nwBox ρ).contains p = false ∧ (b.neBox ρ).contains p = false ∧
          (b.swBox ρ).contains p = false ∧ (b.seBox ρ).contains p = true ∧
          ∃ j, insertFuel ρ n se p = .ok (true, j) ∧ t' = .node b cap pts nw ne sw j))) ∨
     (r = false ∧ t' = .node b cap pts nw ne sw se ∧
      (b.nwBox ρ).contains p = false ∧ (b.neBox ρ).contains p = false ∧
      (b.swBox ρ).contains p = false ∧ (b.seBox ρ).contains p = false)) := by
  simp only [WF] at hwf
  obtain ⟨-, -, -, hkids⟩ := hwf
  rcases hkids with ⟨rfl, -, -, -⟩ | ⟨hs, b1, b2, b3, b4, w1, w2, w3, w4⟩
  · simp [isNull] at hk
  rw [insertFuel_inner _ _ _ _ _ _ _ _ _ _ hp hs hk] at h
  exact ⟨⟨w1, w2, w3, w4⟩, ⟨b1, b2, b3, b4⟩,
    descend_cases ρ c p n (insertFuel_spec ρ c p n) b cap pts nw ne sw se b1 b2 b3 b4
      w1 w2 w3 w4 r t' h⟩

theorem storedUnder_iff_first (ρ : Rounding) (c : Int) (R : BoundingBox) (t : QuadTree)
    (p : Point) (hwf : t.WF ρ c) (hbox : t.boxOf = some R)
    (hk : (t.child 0).isNull = false) (n : Nat) (t' : QuadTree)
    (h : insertFuel ρ n t p = .ok (true, t')) (i : Nat) :
    StoredUnder p t t' i ↔ i = R.firstQuadrant ρ p := by
  cases n with
  | zero => simp [insertFuel] at h
  | succ n =>
    cases t with
    | null => exact absurd hwf (by simp [WF])
    | node b cap pts nw ne sw se =>
      simp only [boxOf, Option.some.injEq] at hbox
      subst hbox
      simp only [child] at hk
      have hp : b.contains p = true :=
        ((insertFuel_spec ρ c p _ _ _ _ hwf h).2.2.1 b rfl).1 rfl
      obtain ⟨⟨w1, w2, w3, w4⟩, -, hc⟩ :=
        insertFuel_inner_cases ρ c n b cap pts nw ne sw se p hwf hk hp true t' h
      have add : ∀ (k j : QuadTree), k.WF ρ c → insertFuel ρ n k p = .ok (true, j) →
          j.allPoints.Perm (p :: k.allPoints) := by
        intro k j w e
        exact (insertFuel_spec ρ c p n k true j w e).2.2.2.2 rfl
      have nil : ¬ ([] : List Point).Perm [p] := by
        intro hh; simpa using hh.length_eq
      rcases hc with ⟨-, hc⟩ | ⟨hf, -⟩
      swap
      · exact absurd hf (by simp)
      rcases hc with ⟨g1, j, hj, rfl⟩ | ⟨g1, g2, j, hj, rfl⟩ | ⟨g1, g2, g3, j, hj, rfl⟩ |
        ⟨g1, g2, g3, g4, j, hj, rfl⟩
      · simp only [BoundingBox.firstQuadrant, g1, if_true]
        rcases i with _ | _ | _ | _ | i <;>
          simp [StoredUnder, child, add _ _ w1 hj, not_perm_cons_self, allPoints, nil]
      · simp only [BoundingBox.firstQuadrant, g1, g2, if_true, Bool.false_eq_true, if_false]
        rcases i with _ | _ | _ | _ | i <;>
          simp [StoredUnder, child, add _ _ w2 hj, not_perm_cons_self, allPoints, nil]
      · simp only [BoundingBox.firstQuadrant, g1, g2, g3, if_true, Bool.false_eq_true, if_false]
        rcases i with _ | _ | _ | _ | i <;>
          simp [StoredUnder, child, add _ _ w3 hj, not_perm_cons_self, allPoints, nil]
      · simp only [BoundingBox.firstQuadrant, g1, g2, g3, if_true, Bool.false_eq_true, if_false]
        rcases i with _ | _ | _ | _ | i <;>
          simp [StoredUnder, child, add _ _ w4 hj, not_perm_cons_self, allPoints, nil]

/-! ## The worked example and the whole plane -/

theorem rangeRounding_exact (q : ℚ) (h1 : q < 2 ^ 1024 - 2 ^ 970)
    (h2 : -(2 ^ 1024 - 2 ^ 970) < q) : rangeRounding.rnd q = .fin q := by
  simp only [rangeRounding]
  rw [if_neg (not_le.mpr h1), if_neg (not_le.mpr h2)]

theorem exampleTree_steps (ρ : Rounding) (h100 : ρ.rnd 100 = .fin 100)
    (h50 : ρ.rnd 50 = .fin 50) :
    (QuadTree.new (box 0 0 100 100) 1).insertFuel ρ 1 (pt 10 10) =
      .ok (true, .node (box 0 0 100 100) 1 [pt 10 10] .null .null .null .null) ∧
    (QuadTree.node (box 0 0 100 100) 1 [pt 10 10] .null .null .null .null).insertFuel ρ 2
        (pt 20 20) =
      .ok (true, .node (box 0 0 100 100) 1 [pt 10 10]
        (.node (box 0 0 50 50) 1 [pt 20 20] .null .null .null .null)
        (.node (box 50 0 100 50) 1 [] .null .null .null .null)
        (.node (box 0 50 50 100) 1 [] .null .null .null .null)
        (.node (box 50 50 100 100) 1 [] .null .null .null .null)) ∧
    (QuadTree.node (box 0 0 100 100) 1 [pt 10 10]
        (.node (box 0 0 50 50) 1 [pt 20 20] .null .null .null .null)
        (.node (box 50 0 100 50) 1 [] .null .null .null .null)
        (.node (box 0 50 50 100) 1 [] .null .null .null .null)
        (.node (box 50 50 100 100) 1 [] .null .null .null .null)).insertFuel ρ 2 (pt 90 90) =
      .ok (true, exampleTree) := by
  refine ⟨?_, ?_, ?_⟩
  · norm_num [insertFuel, QuadTree.new, box, pt, BoundingBox.contains, Dbl.ge, Dbl.le,
      sizeLtCapacity]
  · norm_num [insertFuel, QuadTree.new, box, pt, BoundingBox.contains, Dbl.ge, Dbl.le,
      sizeLtCapacity, isNull, subdivide, Dbl.add, Dbl.half, h100, h50]
  · norm_num [insertFuel, QuadTree.new, box, pt, BoundingBox.contains, Dbl.ge, Dbl.le,
      sizeLtCapacity, isNull, subdivide, Dbl.add, Dbl.half, h100, h50, exampleTree,
      exampleBox, exampleNW, exampleNE, exampleSW, exampleSE]

theorem rangeRounding_100 : rangeRounding.rnd 100 = .fin 100 :=
  rangeRounding_exact 100 (by norm_num) (by norm_num)

theorem rangeRounding_50 : rangeRounding.rnd 50 = .fin 50 :=
  rangeRounding_exact 50 (by norm_num) (by norm_num)

theorem exampleTree_reachable : Reachable rangeRounding exampleBox 1 exampleTree := by
  obtain ⟨e1, e2, e3⟩ := exampleTree_steps rangeRounding rangeRounding_100 rangeRounding_50
  have s0 : Reachable rangeRounding exampleBox 1 (QuadTree.new (box 0 0 100 100) 1) :=
    Reachable.fresh
  exact Reachable.insert 2 _ _ true _
    (Reachable.insert 2 _ _ true _ (Reachable.insert 1 _ _ true _ s0 e1) e2) e3

theorem planeLeaf_reachable (ρ : Rounding) : Reachable ρ wholePlane 1 planeLeaf :=
  Reachable.insert 1 _ (pt 1 1) true _ Reachable.fresh
    (by norm_num [insertFuel, QuadTree.new, wholePlane, pt, BoundingBox.contains, Dbl.ge,
      Dbl.le, sizeLtCapacity, planeLeaf])

theorem planeLeaf_insert (ρ : Rounding) (n : Nat) (x y : ℚ) :
    planeLeaf.insertFuel ρ (n + 2) (pt x y) = .ok (false, planeSplit) := by
  simp [insertFuel, QuadTree.new, wholePlane, pt, BoundingBox.contains, Dbl.ge,
    Dbl.le, sizeLtCapacity, planeLeaf, planeSplit, isNull, subdivide, Dbl.add, Dbl.half]

theorem planeSplit_insert (ρ : Rounding) (n : Nat) (x y : ℚ) :
    planeSplit.insertFuel ρ (n + 2) (pt x y) = .ok (false, planeSplit) := by
  simp [insertFuel, QuadTree.new, wholePlane, pt, BoundingBox.contains, Dbl.ge,
    Dbl.le, sizeLtCapacity, planeSplit, isNull, subdivide, Dbl.add, Dbl.half]

theorem planeSplit_reachable (ρ : Rounding) : Reachable ρ wholePlane 1 planeSplit :=
  Reachable.insert 2 _ (pt 2 2) false _ (planeLeaf_reachable ρ) (planeLeaf_insert ρ 0 2 2)

/-! ## The claims -/

/-- C1, as the code behaves: on every tree reachable from `QuadTree(R, c)` with
`1 ≤ c` (an `int`), a returning `insert(p)` answers `true` only for a point of
the root boundary `R`; and when no axis of `R` runs from minus infinity to plus
infinity, `insert(p)` returns and the flag is `true` exactly when `R` contains
`p`, so a point of the region is never rejected by all four children. -/
theorem insert_returns_iff_contains (ρ : Rounding) (R : BoundingBox) (c : Int)
    (t : QuadTree) (p : Point)
    (hr : Reachable ρ R c t) (h1 : 1 ≤ c) (h2 : c < 2 ^ 31) :
    (R.NoFullAxis →
      (∃ n t', t.insertFuel ρ n p = .ok (R.contains p, t')) ∧
      (∀ n r t', t.insertFuel ρ n p = .ok (r, t') → (r = true ↔ R.contains p = true))) ∧
    (∀ n r t', t.insertFuel ρ n p = .ok (r, t') → r = true → R.contains p = true) := by
  obtain ⟨hwf, hbox⟩ := reachable_WF hr
  refine ⟨fun hg => ⟨?_, ?_⟩, ?_⟩
  · obtain ⟨r, t', h, -⟩ :=
      insertFuel_total ρ c (int_capacity_pos h1 h2) p (t.height + 1) t hwf le_rfl
    obtain ⟨-, -, hc, -, -⟩ := insertFuel_spec ρ c p _ t r t' hwf h
    rw [(hc R hbox).2 hg] at h
    exact ⟨_, t', h⟩
  · intro n r t' h
    obtain ⟨-, -, hc, -, -⟩ := insertFuel_spec ρ c p n t r t' hwf h
    rw [(hc R hbox).2 hg]
  · intro n r t' h hr'
    obtain ⟨-, -, hc, -, -⟩ := insertFuel_spec ρ c p n t r t' hwf h
    exact (hc R hbox).1 hr'

theorem insert_returns_iff_contains_witness :
    (exampleBox.NoFullAxis →
      (∃ n t', exampleTree.insertFuel rangeRounding n (pt 50 50) =
        .ok (exampleBox.contains (pt 50 50), t')) ∧
      (∀ n r t', exampleTree.insertFuel rangeRounding n (pt 50 50) = .ok (r, t') →
        (r = true ↔ exampleBox.contains (pt 50 50) = true))) ∧
    (∀ n r t', exampleTree.insertFuel rangeRounding n (pt 50 50) = .ok (r, t') →
      r = true → exampleBox.contains (pt 50 50) = true) :=
  insert_returns_iff_contains rangeRounding exampleBox 1 exampleTree (pt 50 50)
    exampleTree_reachable (by decide) (by norm_num)

/-- C1 fails on the code: the whole plane as root with capacity 1, holding
`(1,1)`, is reachable and contains `(2,2)`, yet, whatever the rounding,
`insert((2,2))` returns `false`: the midpoints are NaN and all four children
reject the point. -/
theorem insert_rejects_point_of_whole_plane :
    wholePlane.contains (pt 2 2) = true ∧
    (∀ ρ : Rounding,
      Reachable ρ wholePlane 1 planeLeaf ∧
      planeLeaf.insertFuel ρ 2 (pt 2 2) = .ok (false, planeSplit) ∧
      (∀ n r t', planeLeaf.insertFuel ρ n (pt 2 2) = .ok (r, t') → r = false)) := by
  refine ⟨by simp [wholePlane, pt, BoundingBox.contains, Dbl.ge, Dbl.le], fun ρ =>
    ⟨planeLeaf_reachable ρ, planeLeaf_insert ρ 0 2 2, ?_⟩⟩
  intro n r t' h
  rcases n with _ | _ | n
  · simp [insertFuel] at h
  · simp [insertFuel, planeLeaf, wholePlane, pt, BoundingBox.contains, Dbl.ge, Dbl.le,
      sizeLtCapacity, isNull, subdivide] at h
  · rw [planeLeaf_insert ρ n 2 2] at h
    simp only [Except.ok.injEq, Prod.mk.injEq] at h
    exact h.1.symm

/-- C2: on every tree reachable by `insert` calls, `queryRange(range, results)`
returns and leaves `results` equal to its previous contents followed by the
stored points in pre-order (`allPoints`) filtered by `range.contains`: the
pruned traversal is the unpruned filter. -/
theorem queryRange_eq_filter_allPoints (ρ : Rounding) (R : BoundingBox) (c : Int)
    (t : QuadTree) (hr : Reachable ρ R c t) (range : BoundingBox) (results : List Point) :
    t.queryRange range results =
      .ok (results ++ t.allPoints.filter (fun q => range.contains q)) :=
  queryRange_spec ρ c t (reachable_WF hr).1 range results

theorem queryRange_eq_filter_allPoints_witness :
    exampleTree.queryRange (box 60 60 100 100) [pt 1 2] =
      .ok ([pt 1 2] ++ exampleTree.allPoints.filter
        (fun q => (box 60 60 100 100).contains q)) :=
  queryRange_eq_filter_allPoints rangeRounding exampleBox 1 exampleTree
    exampleTree_reachable _ _

/-- C3: feeding any finite sequence of points to `insert` on a fresh
`QuadTree(R, c)` with `1 ≤ c` returns for every point, and afterwards
`queryRange(R, [])` returns a permutation of the points whose `insert` call
returned `true`, each with its multiplicity. -/
theorem query_root_perm_accepted (ρ : Rounding) (R : BoundingBox) (c : Int)
    (ps : List Point) (h1 : 1 ≤ c) (h2 : c < 2 ^ 31) :
    (∃ n rs t, (QuadTree.new R c).insertAll ρ n ps = .ok (rs, t)) ∧
    (∀ n rs t, (QuadTree.new R c).insertAll ρ n ps = .ok (rs, t) →
      ∃ l, t.queryRange R [] = .ok l ∧ l.Perm (accepted ps rs)) := by
  have hwf : (QuadTree.new R c).WF ρ c := WF_new ρ R c (Int.emod_nonneg _ (by norm_num))
  constructor
  · exact ⟨_, insertAll_total ρ c (int_capacity_pos h1 h2) _ ps _ hwf le_rfl⟩
  · intro n rs t h
    obtain ⟨v, e, a⟩ := insertAll_spec ρ c n ps _ rs t hwf h
    refine ⟨t.allPoints, ?_, by simpa [QuadTree.new, allPoints] using a⟩
    rw [queryRange_spec ρ c t v R [], List.nil_append, List.filter_eq_self.mpr]
    intro q hq
    exact allPoints_in_box ρ c t R v e q hq

theorem query_root_perm_accepted_witness :
    (∃ n rs t, (QuadTree.new exampleBox 1).insertAll rangeRounding n
        [pt 10 10, pt 200 5, pt 10 10, pt 90 90] = .ok (rs, t)) ∧
    (∀ n rs t, (QuadTree.new exampleBox 1).insertAll rangeRounding n
        [pt 10 10, pt 200 5, pt 10 10, pt 90 90] = .ok (rs, t) →
      ∃ l, t.queryRange exampleBox [] = .ok l ∧
        l.Perm (accepted [pt 10 10, pt 200 5, pt 10 10, pt 90 90] rs)) :=
  query_root_perm_accepted rangeRounding exampleBox 1 _ (by decide) (by norm_num)

/-- C4: on any node, with any buffer and any children, whose boundary does not
contain `p`, `insert(p)` returns `false` and leaves the tree exactly as it
was, so `queryRange` over any range gives what it gave before. -/
theorem insert_outside_unchanged (ρ : Rounding) (b : BoundingBox) (cap : Int)
    (pts : List Point) (nw ne sw se : QuadTree) (p : Point) (h : b.contains p = false)
    (n : Nat) :
    (QuadTree.node b cap pts nw ne sw se).insertFuel ρ (n + 1) p =
      .ok (false, .node b cap pts nw ne sw se) ∧
    (∀ r t', (QuadTree.node b cap pts nw ne sw se).insertFuel ρ (n + 1) p = .ok (r, t') →
      r = false ∧ t' = .node b cap pts nw ne sw se ∧
      ∀ range results, t'.queryRange range results =
        (QuadTree.node b cap pts nw ne sw se).queryRange range results) := by
  have e := insertFuel_reject ρ n b cap pts nw ne sw se p h
  refine ⟨e, ?_⟩
  intro r t' h'
  rw [e] at h'
  simp only [Except.ok.injEq, Prod.mk.injEq] at h'
  obtain ⟨rfl, rfl⟩ := h'
  exact ⟨rfl, rfl, fun _ _ => rfl⟩

theorem insert_outside_unchanged_witness :
    (QuadTree.node exampleBox 1 [pt 10 10] exampleNW exampleNE exampleSW
        exampleSE).insertFuel rangeRounding (0 + 1) (pt 200 5) =
      .ok (false, .node exampleBox 1 [pt 10 10] exampleNW exampleNE exampleSW exampleSE) ∧
    (∀ r t', (QuadTree.node exampleBox 1 [pt 10 10] exampleNW exampleNE exampleSW
        exampleSE).insertFuel rangeRounding (0 + 1) (pt 200 5) = .ok (r, t') →
      r = false ∧ t' = .node exampleBox 1 [pt 10 10] exampleNW exampleNE exampleSW exampleSE ∧
      ∀ range results, t'.queryRange range results =
        (QuadTree.node exampleBox 1 [pt 10 10] exampleNW exampleNE exampleSW
          exampleSE).queryRange range results) :=
  insert_outside_unchanged rangeRounding exampleBox 1 _ _ _ _ _ (pt 200 5)
    (by norm_num [BoundingBox.contains, exampleBox, box, pt, Dbl.ge, Dbl.le]) 0

/-- C5: on every tree reachable from `QuadTree(R, c)` with `1 ≤ c`, `insert(p)`
returns; whenever it returns `true` the points stored in the whole tree
afterwards are, as a multiset, the points stored before plus one copy of `p`;
and it does return `true` for `p` in `R` when no axis of `R` runs from minus
infinity to plus infinity. -/
theorem insert_true_adds_one (ρ : Rounding) (R : BoundingBox) (c : Int) (t : QuadTree)
    (p : Point) (hr : Reachable ρ R c t) (h1 : 1 ≤ c) (h2 : c < 2 ^ 31) :
    (∃ n r t', t.insertFuel ρ n p = .ok (r, t')) ∧
    (R.NoFullAxis → R.contains p = true → ∃ n t', t.insertFuel ρ n p = .ok (true, t')) ∧
    (∀ n t', t.insertFuel ρ n p = .ok (true, t') → t'.allPoints.Perm (p :: t.allPoints)) := by
  obtain ⟨hwf, hbox⟩ := reachable_WF hr
  obtain ⟨r, t', h, -⟩ :=
    insertFuel_total ρ c (int_capacity_pos h1 h2) p (t.height + 1) t hwf le_rfl
  refine ⟨⟨_, r, t', h⟩, ?_, ?_⟩
  · intro hg hp
    obtain ⟨-, -, hc, -, -⟩ := insertFuel_spec ρ c p _ t r t' hwf h
    rw [(hc R hbox).2 hg, hp] at h
    exact ⟨_, t', h⟩
  · intro n t' h
    obtain ⟨-, -, -, -, a⟩ := insertFuel_spec ρ c p n t true t' hwf h
    exact a rfl

theorem insert_true_adds_one_witness :
    (∃ n r t', exampleTree.insertFuel rangeRounding n (pt 50 50) = .ok (r, t')) ∧
    (exampleBox.NoFullAxis → exampleBox.contains (pt 50 50) = true →
      ∃ n t', exampleTree.insertFuel rangeRounding n (pt 50 50) = .ok (true, t')) ∧
    (∀ n t', exampleTree.insertFuel rangeRounding n (pt 50 50) = .ok (true, t') →
      t'.allPoints.Perm (pt 50 50 :: exampleTree.allPoints)) :=
  insert_true_adds_one rangeRounding exampleBox 1 exampleTree (pt 50 50)
    exampleTree_reachable (by decide) (by norm_num)

/-- C6: on any node, reachable or not, whose boundary does not intersect
`range`, `queryRange(range, results)` returns with `results` unchanged,
whatever the buffer and the child pointers hold. -/
theorem queryRange_disjoint_unchanged (b : BoundingBox) (cap : Int) (pts : List Point)
    (nw ne sw se : QuadTree) (range : BoundingBox) (results : List Point)
    (h : b.intersects range = false) :
    (QuadTree.node b cap pts nw ne sw se).queryRange range results = .ok results := by
  simp [queryRange, h]

theorem queryRange_disjoint_unchanged_witness :
    (QuadTree.node exampleBox 1 [pt 250 250] exampleTree .null .null .null).queryRange
      (box 200 200 300 300) [] = .ok [] :=
  queryRange_disjoint_unchanged exampleBox 1 _ _ _ _ _ _ _
    (by norm_num [BoundingBox.intersects, exampleBox, box, Dbl.gt, Dbl.lt])

/-- C7: the worked example with capacity 1 over `(0,0)-(100,100)`, for every
rounding that leaves the values 100 and 50 as they are (both are `double`s):
the three calls of `insert` return `true` and build, in turn, a leaf holding
`(10,10)`, a subdivided root with `(20,20)` in the NW child `(0,0)-(50,50)`,
and the same with `(90,90)` in the SE child `(50,50)-(100,100)`; the three
queries then return `(10,10), (20,20), (90,90)`, then `(90,90)` alone, then
nothing. -/
theorem worked_example (ρ : Rounding) (h100 : ρ.rnd 100 = .fin 100)
    (h50 : ρ.rnd 50 = .fin 50) :
    (QuadTree.new (box 0 0 100 100) 1).insertFuel ρ 1 (pt 10 10) =
      .ok (true, .node (box 0 0 100 100) 1 [pt 10 10] .null .null .null .null) ∧
    (QuadTree.node (box 0 0 100 100) 1 [pt 10 10] .null .null .null .null).insertFuel ρ 2
        (pt 20 20) =
      .ok (true, .node (box 0 0 100 100) 1 [pt 10 10]
        (.node (box 0 0 50 50) 1 [pt 20 20] .null .null .null .null)
        (.node (box 50 0 100 50) 1 [] .null .null .null .null)
        (.node (box 0 50 50 100) 1 [] .null .null .null .null)
        (.node (box 50 50 100 100) 1 [] .null .null .null .null)) ∧
    (QuadTree.node (box 0 0 100 100) 1 [pt 10 10]
        (.node (box 0 0 50 50) 1 [pt 20 20] .null .null .null .null)
        (.node (box 50 0 100 50) 1 [] .null .null .null .null)
        (.node (box 0 50 50 100) 1 [] .null .null .null .null)
        (.node (box 50 50 100 100) 1 [] .null .null .null .null)).insertFuel ρ 2 (pt 90 90) =
      .ok (true, exampleTree) ∧
    exampleTree = .node (box 0 0 100 100) 1 [pt 10 10]
        (.node (box 0 0 50 50) 1 [pt 20 20] .null .null .null .null)
        (.node (box 50 0 100 50) 1 [] .null .null .null .null)
        (.node (box 0 50 50 100) 1 [] .null .null .null .null)
        (.node (box 50 50 100 100) 1 [pt 90 90] .null .null .null .null) ∧
    exampleTree.queryRange (box 0 0 100 100) [] = .ok [pt 10 10, pt 20 20, pt 90 90] ∧
    exampleTree.queryRange (box 60 60 100 100) [] = .ok [pt 90 90] ∧
    exampleTree.queryRange (box 200 200 300 300) [] = .ok [] := by
  obtain ⟨e1, e2, e3⟩ := exampleTree_steps ρ h100 h50
  refine ⟨e1, e2, e3, rfl, ?_, ?_, ?_⟩
  · norm_num [queryRange, QuadTree.new, BoundingBox.contains, BoundingBox.intersects, isNull,
      exampleTree, exampleBox, exampleNW, exampleNE, exampleSW, exampleSE, box, pt, Dbl.ge,
      Dbl.gt, Dbl.le, Dbl.lt]
  · norm_num [queryRange, QuadTree.new, BoundingBox.contains, BoundingBox.intersects, isNull,
      exampleTree, exampleBox, exampleNW, exampleNE, exampleSW, exampleSE, box, pt, Dbl.ge,
      Dbl.gt, Dbl.le, Dbl.lt]
  · norm_num [queryRange, QuadTree.new, BoundingBox.contains, BoundingBox.intersects, isNull,
      exampleTree, exampleBox, exampleNW, exampleNE, exampleSW, exampleSE, box, pt, Dbl.ge,
      Dbl.gt, Dbl.le, Dbl.lt]

theorem worked_example_witness :
    (QuadTree.new (box 0 0 100 100) 1).insertFuel rangeRounding 1 (pt 10 10) =
      .ok (true, .node (box 0 0 100 100) 1 [pt 10 10] .null .null .null .null) ∧
    (QuadTree.node (box 0 0 100 100) 1 [pt 10 10] .null .null .null .null).insertFuel
        rangeRounding 2 (pt 20 20) =
      .ok (true, .node (box 0 0 100 100) 1 [pt 10 10]
        (.node (box 0 0 50 50) 1 [pt 20 20] .null .null .null .null)
        (.node (box 50 0 100 50) 1 [] .null .null .null .null)
        (.node (box 0 50 50 100) 1 [] .null .null .null .null)
        (.node (box 50 50 100 100) 1 [] .null .null .null .null)) ∧
    (QuadTree.node (box 0 0 100 100) 1 [pt 10 10]
        (.node (box 0 0 50 50) 1 [pt 20 20] .null .null .null .null)
        (.node (box 50 0 100 50) 1 [] .null .null .null .null)
        (.node (box 0 50 50 100) 1 [] .null .null .null .null)
        (.node (box 50 50 100 100) 1 [] .null .null .null .null)).insertFuel
        rangeRounding 2 (pt 90 90) =
      .ok (true, exampleTree) ∧
    exampleTree = .node (box 0 0 100 100) 1 [pt 10 10]
        (.node (box 0 0 50 50) 1 [pt 20 20] .null .null .null .null)
        (.node (box 50 0 100 50) 1 [] .null .null .null .null)
        (.node (box 0 50 50 100) 1 [] .null .null .null .null)
        (.node (box 50 50 100 100) 1 [pt 90 90] .null .null .null .null) ∧
    exampleTree.queryRange (box 0 0 100 100) [] = .ok [pt 10 10, pt 20 20, pt 90 90] ∧
    exampleTree.queryRange (box 60 60 100 100) [] = .ok [pt 90 90] ∧
    exampleTree.queryRange (box 200 200 300 300) [] = .ok [] :=
  worked_example rangeRounding (rangeRounding_exact 100 (by norm_num) (by norm_num))
    (rangeRounding_exact 50 (by norm_num) (by norm_num))

/-- C8: on every tree reachable from `QuadTree(R, c)` with `1 ≤ c`, `insert(p)`
returns within a call depth of one more than the height of the tree, the tree
it leaves is at most one level higher, and `queryRange` returns as well. -/
theorem insert_and_query_terminate (ρ : Rounding) (R : BoundingBox) (c : Int)
    (t : QuadTree) (p : Point) (range : BoundingBox) (results : List Point)
    (hr : Reachable ρ R c t) (h1 : 1 ≤ c) (h2 : c < 2 ^ 31) :
    (∃ r t', t.insertFuel ρ (t.height + 1) p = .ok (r, t') ∧ t'.height ≤ t.height + 1) ∧
    (∃ l, t.queryRange range results = .ok l) := by
  obtain ⟨hwf, -⟩ := reachable_WF hr
  exact ⟨insertFuel_total ρ c (int_capacity_pos h1 h2) p (t.height + 1) t hwf le_rfl,
    _, queryRange_spec ρ c t hwf range results⟩

theorem insert_and_query_terminate_witness :
    (∃ r t', exampleTree.insertFuel rangeRounding (exampleTree.height + 1) (pt 20 20) =
        .ok (r, t') ∧ t'.height ≤ exampleTree.height + 1) ∧
    (∃ l, exampleTree.queryRange (box 60 60 100 100) [] = .ok l) :=
  insert_and_query_terminate rangeRounding exampleBox 1 exampleTree (pt 20 20)
    (box 60 60 100 100) [] exampleTree_reachable (by decide) (by norm_num)

/-- C9, as the code behaves: with capacity 0, on a fresh tree whose boundary
has no axis running from minus infinity to plus infinity and contains `p`,
`insert(p)` never returns: at every call depth allowed the call is still
descending, because each node reached has an empty buffer that is not below
the capacity, subdivides, and hands `p` to a child that contains it. -/
theorem insert_zero_capacity_diverges (ρ : Rounding) (b : BoundingBox) (p : Point)
    (hg : b.NoFullAxis) (h : b.contains p = true) (n : Nat) :
    (QuadTree.new b 0).insertFuel ρ n p = .error .outOfFuel := by
  rcases insertFuel_zero_capacity ρ p n b hg with e | ⟨f, -⟩
  · exact e
  · rw [h] at f; exact absurd f (by simp)

theorem insert_zero_capacity_diverges_witness :
    (QuadTree.new exampleBox 0).insertFuel rangeRounding 7 (pt 10 10) = .error .outOfFuel :=
  insert_zero_capacity_diverges rangeRounding exampleBox (pt 10 10)
    (by simp [BoundingBox.NoFullAxis, exampleBox, box])
    (by norm_num [BoundingBox.contains, exampleBox, box, pt, Dbl.ge, Dbl.le]) 7

/-- C9 fails on the code: with capacity 0 over `(0,0)-(100,100)`, whatever the
rounding, no call depth lets `insert((10,10))` on the fresh tree return a
value. -/
theorem insert_zero_capacity_never_returns :
    ¬ ∃ (ρ : Rounding) (n : Nat) (r : Bool) (t' : QuadTree),
      (QuadTree.new (box 0 0 100 100) 0).insertFuel ρ n (pt 10 10) = .ok (r, t') := by
  rintro ⟨ρ, n, r, t', h⟩
  rcases insertFuel_zero_capacity ρ (pt 10 10) n (box 0 0 100 100)
    (by simp [BoundingBox.NoFullAxis, box]) with e | ⟨f, -⟩
  · rw [e] at h; exact absurd h (by simp)
  · norm_num [BoundingBox.contains, box, pt, Dbl.ge, Dbl.le] at f

/-- C10: with exact arithmetic for the midpoints (the rounding leaves the two
sums and the two halves as they are), `subdivide` gives a node over the box
`R = (x1,y1)-(x2,y2)` the four children NW `(x1,y1,xMid,yMid)`,
NE `(xMid,y1,x2,yMid)`, SW `(x1,yMid,xMid,y2)`, SE `(xMid,yMid,x2,y2)` with
`xMid = (x1+x2)/2` and `yMid = (y1+y2)/2`, and for every such `R`, well-formed
or not, and every point `p`, `R` contains `p` exactly when at least one of the
four child boxes does. -/
theorem subdivide_covers (ρ : Rounding) (x1 y1 x2 y2 : ℚ) (cap : Int) (pts : List Point)
    (nw ne sw se : QuadTree) (p : Point)
    (hx : ρ.rnd (x1 + x2) = .fin (x1 + x2)) (hxm : ρ.rnd ((x1 + x2) / 2) = .fin ((x1 + x2) / 2))
    (hy : ρ.rnd (y1 + y2) = .fin (y1 + y2)) (hym : ρ.rnd ((y1 + y2) / 2) = .fin ((y1 + y2) / 2)) :
    (QuadTree.node (box x1 y1 x2 y2) cap pts nw ne sw se).subdivide ρ =
      .node (box x1 y1 x2 y2) cap pts
        (QuadTree.new (box x1 y1 ((x1 + x2) / 2) ((y1 + y2) / 2)) cap)
        (QuadTree.new (box ((x1 + x2) / 2) y1 x2 ((y1 + y2) / 2)) cap)
        (QuadTree.new (box x1 ((y1 + y2) / 2) ((x1 + x2) / 2) y2) cap)
        (QuadTree.new (box ((x1 + x2) / 2) ((y1 + y2) / 2) x2 y2) cap) ∧
    ((box x1 y1 x2 y2).contains p = true ↔
      ((box x1 y1 ((x1 + x2) / 2) ((y1 + y2) / 2)).contains p = true ∨
       (box ((x1 + x2) / 2) y1 x2 ((y1 + y2) / 2)).contains p = true ∨
       (box x1 ((y1 + y2) / 2) ((x1 + x2) / 2) y2).contains p = true ∨
       (box ((x1 + x2) / 2) ((y1 + y2) / 2) x2 y2).contains p = true)) := by
  refine ⟨?_, quadrant_cover_exact x1 y1 x2 y2 p⟩
  simp [subdivide, box, Dbl.add, Dbl.half, hx, hxm, hy, hym]

theorem subdivide_covers_witness :
    (QuadTree.node (box 0 0 100 100) 1 [pt 10 10] .null .null .null .null).subdivide
        rangeRounding =
      .node (box 0 0 100 100) 1 [pt 10 10]
        (QuadTree.new (box 0 0 ((0 + 100) / 2) ((0 + 100) / 2)) 1)
        (QuadTree.new (box ((0 + 100) / 2) 0 100 ((0 + 100) / 2)) 1)
        (QuadTree.new (box 0 ((0 + 100) / 2) ((0 + 100) / 2) 100) 1)
        (QuadTree.new (box ((0 + 100) / 2) ((0 + 100) / 2) 100 100) 1) ∧
    ((box 0 0 100 100).contains (pt 50 50) = true ↔
      ((box 0 0 ((0 + 100) / 2) ((0 + 100) / 2)).contains (pt 50 50) = true ∨
       (box ((0 + 100) / 2) 0 100 ((0 + 100) / 2)).contains (pt 50 50) = true ∨
       (box 0 ((0 + 100) / 2) ((0 + 100) / 2) 100).contains (pt 50 50) = true ∨
       (box ((0 + 100) / 2) ((0 + 100) / 2) 100 100).contains (pt 50 50) = true)) :=
  subdivide_covers rangeRounding 0 0 100 100 1 [pt 10 10] .null .null .null .null (pt 50 50)
    (rangeRounding_exact _ (by norm_num) (by norm_num))
    (rangeRounding_exact _ (by norm_num) (by norm_num))
    (rangeRounding_exact _ (by norm_num) (by norm_num))
    (rangeRounding_exact _ (by norm_num) (by norm_num))

theorem dlt_false_iff {a b : Dbl} (ha : a ≠ .nan) (hb : b ≠ .nan) :
    Dbl.lt a b = false ↔ Dbl.le b a = true := by
  cases a <;> cases b <;> simp_all [Dbl.le, Dbl.lt]

theorem dle_upper (a b c : Dbl) (ha : Dbl.le a c = true) (hb : Dbl.le b c = true) :
    Dbl.le a (if Dbl.le a b = true then b else a) = true ∧
    Dbl.le b (if Dbl.le a b = true then b else a) = true ∧
    Dbl.le (if Dbl.le a b = true then b else a) c = true := by
  by_cases h : Dbl.le a b = true
  · rw [if_pos h]
    exact ⟨h, dle_refl (dle_ne_nan hb).1, hb⟩
  · rw [if_neg h]
    refine ⟨dle_refl (dle_ne_nan ha).1, ?_, ha⟩
    rcases dle_total (dle_ne_nan ha).1 (dle_ne_nan hb).1 with g | g
    · exact absurd g h
    · exact g

/-- C11: for well-formed boxes `a` and `b`, `a.intersects(b)` is `true` exactly
when some point is contained in both; boxes strictly separated along an axis
do not intersect, and boxes that touch along the edge `x = a.x2` (along a
stretch or at a corner only) do. -/
theorem intersects_iff_common_point (a b : BoundingBox)
    (ha : Dbl.le a.x1 a.x2 = true ∧ Dbl.le a.y1 a.y2 = true)
    (hb : Dbl.le b.x1 b.x2 = true ∧ Dbl.le b.y1 b.y2 = true) :
    (a.intersects b = true ↔ ∃ p, a.contains p = true ∧ b.contains p = true) ∧
    ((Dbl.gt b.x1 a.x2 = true ∨ Dbl.lt b.x2 a.x1 = true ∨
      Dbl.gt b.y1 a.y2 = true ∨ Dbl.lt b.y2 a.y1 = true) → a.intersects b = false) ∧
    (b.x1 = a.x2 → Dbl.le b.y1 a.y2 = true → Dbl.le a.y1 b.y2 = true →
      a.intersects b = true) := by
  obtain ⟨ax1, ax2⟩ := dle_ne_nan ha.1
  obtain ⟨ay1, ay2⟩ := dle_ne_nan ha.2
  obtain ⟨bx1, bx2⟩ := dle_ne_nan hb.1
  obtain ⟨by1, by2⟩ := dle_ne_nan hb.2
  have hi : a.intersects b = true ↔
      (Dbl.le b.x1 a.x2 = true ∧ Dbl.le a.x1 b.x2 = true ∧
       Dbl.le b.y1 a.y2 = true ∧ Dbl.le a.y1 b.y2 = true) := by
    simp only [BoundingBox.intersects, Dbl.gt, Bool.not_eq_true', Bool.or_eq_false_iff,
      and_assoc]
    rw [dlt_false_iff ax2 bx1, dlt_false_iff bx2 ax1, dlt_false_iff ay2 by1,
      dlt_false_iff by2 ay1]
  refine ⟨?_, ?_, ?_⟩
  · rw [hi]
    constructor
    · rintro ⟨h1, h2, h3, h4⟩
      obtain ⟨u1, u2, u3⟩ := dle_upper a.x1 b.x1 a.x2 ha.1 h1
      obtain ⟨v1, v2, v3⟩ := dle_upper a.y1 b.y1 a.y2 ha.2 h3
      obtain ⟨_, _, u4⟩ := dle_upper a.x1 b.x1 b.x2 h2 hb.1
      obtain ⟨_, _, v4⟩ := dle_upper a.y1 b.y1 b.y2 h4 hb.2
      refine ⟨⟨if Dbl.le a.x1 b.x1 = true then b.x1 else a.x1,
        if Dbl.le a.y1 b.y1 = true then b.y1 else a.y1⟩, ?_, ?_⟩
      · rw [contains_iff]
        exact ⟨u1, u3, v1, v3⟩
      · rw [contains_iff]
        exact ⟨u2, u4, v2, v4⟩
    · rintro ⟨p, hpa, hpb⟩
      rw [contains_iff] at hpa hpb
      obtain ⟨a1, a2, a3, a4⟩ := hpa
      obtain ⟨c1, c2, c3, c4⟩ := hpb
      exact ⟨dle_trans c1 a2, dle_trans a1 c2, dle_trans c3 a4, dle_trans a3 c4⟩
  · intro hsep
    cases hx : a.intersects b with
    | false => rfl
    | true =>
      obtain ⟨h1, h2, h3, h4⟩ := hi.mp hx
      simp only [Dbl.gt] at hsep
      rcases hsep with g | g | g | g
      · rw [dlt_not_le g] at h1; exact absurd h1 (by simp)
      · rw [dlt_not_le g] at h2; exact absurd h2 (by simp)
      · rw [dlt_not_le g] at h3; exact absurd h3 (by simp)
      · rw [dlt_not_le g] at h4; exact absurd h4 (by simp)
  · intro e h3 h4
    rw [hi]
    refine ⟨?_, ?_, h3, h4⟩
    · rw [e]; exact dle_refl ax2
    · rw [← e] at ha; exact dle_trans ha.1 hb.1

theorem intersects_iff_common_point_witness :
    ((box 0 0 50 50).intersects (box 50 50 100 100) = true ↔
      ∃ p, (box 0 0 50 50).contains p = true ∧ (box 50 50 100 100).contains p = true) ∧
    ((Dbl.gt (box 50 50 100 100).x1 (box 0 0 50 50).x2 = true ∨
      Dbl.lt (box 50 50 100 100).x2 (box 0 0 50 50).x1 = true ∨
      Dbl.gt (box 50 50 100 100).y1 (box 0 0 50 50).y2 = true ∨
      Dbl.lt (box 50 50 100 100).y2 (box 0 0 50 50).y1 = true) →
      (box 0 0 50 50).intersects (box 50 50 100 100) = false) ∧
    ((box 50 50 100 100).x1 = (box 0 0 50 50).x2 →
      Dbl.le (box 50 50 100 100).y1 (box 0 0 50 50).y2 = true →
      Dbl.le (box 0 0 50 50).y1 (box 50 50 100 100).y2 = true →
      (box 0 0 50 50).intersects (box 50 50 100 100) = true) :=
  intersects_iff_common_point (box 0 0 50 50) (box 50 50 100 100)
    ⟨by norm_num [box, Dbl.le], by norm_num [box, Dbl.le]⟩
    ⟨by norm_num [box, Dbl.le], by norm_num [box, Dbl.le]⟩

theorem exampleTreeTwo_reachable : Reachable rangeRounding exampleBox 1 exampleTreeTwo := by
  obtain ⟨e1, e2, -⟩ := exampleTree_steps rangeRounding rangeRounding_100 rangeRounding_50
  have s0 : Reachable rangeRounding exampleBox 1 (QuadTree.new (box 0 0 100 100) 1) :=
    Reachable.fresh
  exact Reachable.insert 2 _ _ true _ (Reachable.insert 1 _ _ true _ s0 e1) e2

theorem exampleTree_insert_mid :
    exampleTree.insertFuel rangeRounding 3 (pt 50 50) =
      .ok (true, .node exampleBox 1 [pt 10 10] exampleNWAfter exampleNE exampleSW exampleSE) := by
  have a1 : rangeRounding.rnd 25 = .fin 25 := rangeRounding_exact 25 (by norm_num) (by norm_num)
  norm_num [insertFuel, QuadTree.new, box, pt, BoundingBox.contains, Dbl.ge, Dbl.le,
    sizeLtCapacity, isNull, subdivide, Dbl.add, Dbl.half, rangeRounding_50, a1, exampleTree,
    exampleBox, exampleNW, exampleNE, exampleSW, exampleSE, exampleNWAfter]

theorem exampleTreeTwo_insert_mid :
    exampleTreeTwo.insertFuel rangeRounding 3 (pt 50 50) =
      .ok (true, .node exampleBox 1 [pt 10 10] exampleNWAfter exampleNE exampleSW
        (QuadTree.new (box 50 50 100 100) 1)) := by
  have a1 : rangeRounding.rnd 25 = .fin 25 := rangeRounding_exact 25 (by norm_num) (by norm_num)
  norm_num [insertFuel, QuadTree.new, box, pt, BoundingBox.contains, Dbl.ge, Dbl.le,
    sizeLtCapacity, isNull, subdivide, Dbl.add, Dbl.half, rangeRounding_50, a1,
    exampleTreeTwo, exampleBox, exampleNW, exampleNE, exampleSW, exampleNWAfter]

theorem exampleNW_storedUnder (se se' : QuadTree) :
    StoredUnder (pt 50 50)
      (.node exampleBox 1 [pt 10 10] exampleNW exampleNE exampleSW se)
      (.node exampleBox 1 [pt 10 10] exampleNWAfter exampleNE exampleSW se') 0 := by
  simp only [StoredUnder, child, exampleNW, exampleNWAfter, allPoints, QuadTree.new,
    List.append_nil, List.nil_append]
  exact List.Perm.swap _ _ _

/-- C12, as the code behaves: a leaf whose boundary `R` has no axis running
from minus infinity to plus infinity, with capacity `cap ≥ 1` and exactly `cap`
points in its buffer, asked to insert a point `p` of `R`, returns `true` and
becomes a node with the same boundary, capacity and buffer and four children
of capacity `cap` over the quadrants NW, NE, SW, SE; the first of them whose
boundary contains `p` is a leaf holding `[p]`, the other three are empty
leaves. -/
theorem subdivision_keeps_buffer (ρ : Rounding) (R : BoundingBox) (cap : Int)
    (pts : List Point) (p : Point) (n : Nat) (h1 : 1 ≤ cap) (h2 : cap < 2 ^ 31)
    (hlen : (pts.length : Int) = cap) (hg : R.NoFullAxis) (hp : R.contains p = true) :
    (QuadTree.node R cap pts .null .null .null .null).insertFuel ρ (n + 2) p =
      .ok (true, .node R cap pts
        (.node ⟨R.x1, R.y1, Dbl.half ρ (Dbl.add ρ R.x1 R.x2), Dbl.half ρ (Dbl.add ρ R.y1 R.y2)⟩
          cap (if R.firstQuadrant ρ p = 0 then [p] else []) .null .null .null .null)
        (.node ⟨Dbl.half ρ (Dbl.add ρ R.x1 R.x2), R.y1, R.x2, Dbl.half ρ (Dbl.add ρ R.y1 R.y2)⟩
          cap (if R.firstQuadrant ρ p = 1 then [p] else []) .null .null .null .null)
        (.node ⟨R.x1, Dbl.half ρ (Dbl.add ρ R.y1 R.y2), Dbl.half ρ (Dbl.add ρ R.x1 R.x2), R.y2⟩
          cap (if R.firstQuadrant ρ p = 2 then [p] else []) .null .null .null .null)
        (.node ⟨Dbl.half ρ (Dbl.add ρ R.x1 R.x2), Dbl.half ρ (Dbl.add ρ R.y1 R.y2), R.x2, R.y2⟩
          cap (if R.firstQuadrant ρ p = 3 then [p] else []) .null .null .null .null)) := by
  have hc := int_capacity_pos h1 h2
  have hs : sizeLtCapacity pts.length cap = false := by
    simp only [sizeLtCapacity, decide_eq_false_iff_not, not_lt]
    omega
  rw [insertFuel_leaf_full _ _ _ _ _ _ _ _ _ hp hs]
  unfold descend
  rw [insertFuel_new ρ n (R.nwBox ρ) cap p hc, insertFuel_new ρ n (R.neBox ρ) cap p hc,
    insertFuel_new ρ n (R.swBox ρ) cap p hc, insertFuel_new ρ n (R.seBox ρ) cap p hc]
  have hcov := quadrant_cover_fwd ρ R p hg hp
  unfold BoundingBox.firstQuadrant
  cases g1 : (R.nwBox ρ).contains p <;> cases g2 : (R.neBox ρ).contains p <;>
    cases g3 : (R.swBox ρ).contains p <;> cases g4 : (R.seBox ρ).contains p <;>
    simp [g1, g2, g3, g4] at hcov ⊢ <;>
    simp [QuadTree.new, BoundingBox.nwBox, BoundingBox.neBox, BoundingBox.swBox,
      BoundingBox.seBox, Dbl.mid]

theorem subdivision_keeps_buffer_witness :
    (QuadTree.node exampleBox 1 [pt 10 10] .null .null .null .null).insertFuel rangeRounding
        (0 + 2) (pt 50 50) =
      .ok (true, .node exampleBox 1 [pt 10 10]
        (.node ⟨exampleBox.x1, exampleBox.y1,
            Dbl.half rangeRounding (Dbl.add rangeRounding exampleBox.x1 exampleBox.x2),
            Dbl.half rangeRounding (Dbl.add rangeRounding exampleBox.y1 exampleBox.y2)⟩ 1
          (if exampleBox.firstQuadrant rangeRounding (pt 50 50) = 0 then [pt 50 50] else [])
          .null .null .null .null)
        (.node ⟨Dbl.half rangeRounding (Dbl.add rangeRounding exampleBox.x1 exampleBox.x2),
            exampleBox.y1, exampleBox.x2,
            Dbl.half rangeRounding (Dbl.add rangeRounding exampleBox.y1 exampleBox.y2)⟩ 1
          (if exampleBox.firstQuadrant rangeRounding (pt 50 50) = 1 then [pt 50 50] else [])
          .null .null .null .null)
        (.node ⟨exampleBox.x1,
            Dbl.half rangeRounding (Dbl.add rangeRounding exampleBox.y1 exampleBox.y2),
            Dbl.half rangeRounding (Dbl.add rangeRounding exampleBox.x1 exampleBox.x2),
            exampleBox.y2⟩ 1
          (if exampleBox.firstQuadrant rangeRounding (pt 50 50) = 2 then [pt 50 50] else [])
          .null .null .null .null)
        (.node ⟨Dbl.half rangeRounding (Dbl.add rangeRounding exampleBox.x1 exampleBox.x2),
            Dbl.half rangeRounding (Dbl.add rangeRounding exampleBox.y1 exampleBox.y2),
            exampleBox.x2, exampleBox.y2⟩ 1
          (if exampleBox.firstQuadrant rangeRounding (pt 50 50) = 3 then [pt 50 50] else [])
          .null .null .null .null)) :=
  subdivision_keeps_buffer rangeRounding exampleBox 1 [pt 10 10] (pt 50 50) 0 (by decide)
    (by norm_num) (by simp) (by simp [BoundingBox.NoFullAxis, exampleBox, box])
    (by norm_num [BoundingBox.contains, exampleBox, box, pt, Dbl.ge, Dbl.le])

/-- C12 fails on the code: the whole plane as a leaf with capacity 1 and one
buffered point contains `(2,2)`, yet, whatever the rounding, `insert((2,2))`
returns `false`; the leaf is subdivided into four children with NaN corners
and the point is stored nowhere. -/
theorem full_leaf_over_whole_plane_rejects :
    planeLeaf = .node wholePlane 1 [pt 1 1] .null .null .null .null ∧
    wholePlane.contains (pt 2 2) = true ∧
    (∀ ρ : Rounding, planeLeaf.insertFuel ρ 2 (pt 2 2) = .ok (false, planeSplit)) ∧
    planeSplit.allPoints = [pt 1 1] := by
  refine ⟨rfl, by simp [wholePlane, pt, BoundingBox.contains, Dbl.ge, Dbl.le],
    fun ρ => planeLeaf_insert ρ 0 2 2, ?_⟩
  simp [planeSplit, allPoints, QuadTree.new]

/-- C13, as the code behaves: on a reachable tree (capacity an `int ≥ 1`) whose
root already has children and whose root boundary has no axis running from
minus infinity to plus infinity, `insert(p)` with `p` in the root boundary
returns `true` and changes exactly one child subtree: the first child in the
order NW, NE, SW, SE whose boundary contains `p` becomes the result of
inserting `p` into it, while the root buffer and the other three children stay
as they were. -/
theorem insert_changes_first_containing_child (ρ : Rounding) (R : BoundingBox) (c : Int)
    (b : BoundingBox) (cap : Int) (pts : List Point) (nw ne sw se : QuadTree) (p : Point)
    (hr : Reachable ρ R c (.node b cap pts nw ne sw se)) (h1 : 1 ≤ c) (h2 : c < 2 ^ 31)
    (hk : nw.isNull = false) (hg : b.NoFullAxis) (hp : b.contains p = true) :
    (∃ n t', (QuadTree.node b cap pts nw ne sw se).insertFuel ρ (n + 1) p = .ok (true, t')) ∧
    (∀ n r t', (QuadTree.node b cap pts nw ne sw se).insertFuel ρ (n + 1) p = .ok (r, t') →
      r = true ∧
      (nw.boxOf = some (b.nwBox ρ) ∧ ne.boxOf = some (b.neBox ρ) ∧
        sw.boxOf = some (b.swBox ρ) ∧ se.boxOf = some (b.seBox ρ)) ∧
      (((b.nwBox ρ).contains p = true ∧
          ∃ j, nw.insertFuel ρ n p = .ok (true, j) ∧ t' = .node b cap pts j ne sw se) ∨
       ((b.nwBox ρ).contains p = false ∧ (b.neBox ρ).contains p = true ∧
          ∃ j, ne.insertFuel ρ n p = .ok (true, j) ∧ t' = .node b cap pts nw j sw se) ∨
       ((b.nwBox ρ).contains p = false ∧ (b.neBox ρ).contains p = false ∧
          (b.swBox ρ).contains p = true ∧
          ∃ j, sw.insertFuel ρ n p = .ok (true, j) ∧ t' = .node b cap pts nw ne j se) ∨
       ((b.nwBox ρ).contains p = false ∧ (b.neBox ρ).contains p = false ∧
          (b.swBox ρ).contains p = false ∧ (b.seBox ρ).contains p = true ∧
          ∃ j, se.insertFuel ρ n p = .ok (true, j) ∧ t' = .node b cap pts nw ne sw j))) := by
  obtain ⟨hwf, hbox⟩ := reachable_WF hr
  have key : ∀ n r t', (QuadTree.node b cap pts nw ne sw se).insertFuel ρ (n + 1) p =
      .ok (r, t') → r = true ∧
      (nw.boxOf = some (b.nwBox ρ) ∧ ne.boxOf = some (b.neBox ρ) ∧
        sw.boxOf = some (b.swBox ρ) ∧ se.boxOf = some (b.seBox ρ)) ∧
      (((b.nwBox ρ).contains p = true ∧
          ∃ j, nw.insertFuel ρ n p = .ok (true, j) ∧ t' = .node b cap pts j ne sw se) ∨
       ((b.nwBox ρ).contains p = false ∧ (b.neBox ρ).contains p = true ∧
          ∃ j, ne.insertFuel ρ n p = .ok (true, j) ∧ t' = .node b cap pts nw j sw se) ∨
       ((b.nwBox ρ).contains p = false ∧ (b.neBox ρ).contains p = false ∧
          (b.swBox ρ).contains p = true ∧
          ∃ j, sw.insertFuel ρ n p = .ok (true, j) ∧ t' = .node b cap pts nw ne j se) ∨
       ((b.nwBox ρ).contains p = false ∧ (b.neBox ρ).contains p = false ∧
          (b.swBox ρ).contains p = false ∧ (b.seBox ρ).contains p = true ∧
          ∃ j, se.insertFuel ρ n p = .ok (true, j) ∧ t' = .node b cap pts nw ne sw j)) := by
    intro n r t' h
    obtain ⟨-, hbx, hc⟩ := insertFuel_inner_cases ρ c n b cap pts nw ne sw se p hwf hk hp r t' h
    rcases hc with ⟨hr', hc⟩ | ⟨-, -, c1, c2, c3, c4⟩
    · exact ⟨hr', hbx, hc⟩
    · rcases quadrant_cover_fwd ρ b p hg hp with g | g | g | g
      · rw [g] at c1; exact absurd c1 (by simp)
      · rw [g] at c2; exact absurd c2 (by simp)
      · rw [g] at c3; exact absurd c3 (by simp)
      · rw [g] at c4; exact absurd c4 (by simp)
  refine ⟨?_, key⟩
  obtain ⟨r, t', h, -⟩ := insertFuel_total ρ c (int_capacity_pos h1 h2) p
    ((QuadTree.node b cap pts nw ne sw se).height + 1) _ hwf le_rfl
  obtain ⟨hr', -⟩ := key _ r t' h
  subst hr'
  exact ⟨_, t', h⟩

theorem insert_changes_first_containing_child_witness :
    (∃ n t', (QuadTree.node exampleBox 1 [pt 10 10] exampleNW exampleNE exampleSW
        exampleSE).insertFuel rangeRounding (n + 1) (pt 50 50) = .ok (true, t')) ∧
    (∀ n r t', (QuadTree.node exampleBox 1 [pt 10 10] exampleNW exampleNE exampleSW
        exampleSE).insertFuel rangeRounding (n + 1) (pt 50 50) = .ok (r, t') →
      r = true ∧
      (exampleNW.boxOf = some (exampleBox.nwBox rangeRounding) ∧
        exampleNE.boxOf = some (exampleBox.neBox rangeRounding) ∧
        exampleSW.boxOf = some (exampleBox.swBox rangeRounding) ∧
        exampleSE.boxOf = some (exampleBox.seBox rangeRounding)) ∧
      (((exampleBox.nwBox rangeRounding).contains (pt 50 50) = true ∧
          ∃ j, exampleNW.insertFuel rangeRounding n (pt 50 50) = .ok (true, j) ∧
            t' = .node exampleBox 1 [pt 10 10] j exampleNE exampleSW exampleSE) ∨
       ((exampleBox.nwBox rangeRounding).contains (pt 50 50) = false ∧
          (exampleBox.neBox rangeRounding).contains (pt 50 50) = true ∧
          ∃ j, exampleNE.insertFuel rangeRounding n (pt 50 50) = .ok (true, j) ∧
            t' = .node exampleBox 1 [pt 10 10] exampleNW j exampleSW exampleSE) ∨
       ((exampleBox.nwBox rangeRounding).contains (pt 50 50) = false ∧
          (exampleBox.neBox rangeRounding).contains (pt 50 50) = false ∧
          (exampleBox.swBox rangeRounding).contains (pt 50 50) = true ∧
          ∃ j, exampleSW.insertFuel rangeRounding n (pt 50 50) = .ok (true, j) ∧
            t' = .node exampleBox 1 [pt 10 10] exampleNW exampleNE j exampleSE) ∨
       ((exampleBox.nwBox rangeRounding).contains (pt 50 50) = false ∧
          (exampleBox.neBox rangeRounding).contains (pt 50 50) = false ∧
          (exampleBox.swBox rangeRounding).contains (pt 50 50) = false ∧
          (exampleBox.seBox rangeRounding).contains (pt 50 50) = true ∧
          ∃ j, exampleSE.insertFuel rangeRounding n (pt 50 50) = .ok (true, j) ∧
            t' = .node exampleBox 1 [pt 10 10] exampleNW exampleNE exampleSW j))) :=
  insert_changes_first_containing_child rangeRounding exampleBox 1 exampleBox 1 [pt 10 10]
    exampleNW exampleNE exampleSW exampleSE (pt 50 50) exampleTree_reachable (by decide)
    (by norm_num) rfl (by simp [BoundingBox.NoFullAxis, exampleBox, box])
    (by norm_num [BoundingBox.contains, exampleBox, box, pt, Dbl.ge, Dbl.le])

/-- C13 fails on the code: the whole plane as root with capacity 1, already
subdivided, is reachable and contains `(3,3)`, yet, whatever the rounding,
`insert((3,3))` returns `false` and changes no child: every child boundary has
a NaN corner. -/
theorem subdivided_whole_plane_changes_no_child :
    (planeSplit.child 0).isNull = false ∧
    wholePlane.contains (pt 3 3) = true ∧
    (∀ ρ : Rounding,
      Reachable ρ wholePlane 1 planeSplit ∧
      planeSplit.insertFuel ρ 2 (pt 3 3) = .ok (false, planeSplit)) := by
  refine ⟨rfl, by simp [wholePlane, pt, BoundingBox.contains, Dbl.ge, Dbl.le],
    fun ρ => ⟨planeSplit_reachable ρ, planeSplit_insert ρ 0 3 3⟩⟩

/-- C14, as the code behaves: which child receives a point does not depend on
fill order.  For two trees reachable from fresh trees with the same root
boundary and the same capacity (of any value, so also `≥ 1`), both with a
subdivided root, and any point `p`: when `insert(p)` returns `true` on both and stores `p` below the
child at position `i` of the first and at position `j` of the second, then
`i = j`. -/
theorem boundary_point_child_is_fixed (ρ : Rounding) (R : BoundingBox) (c : Int)
    (t1 t2 : QuadTree) (p : Point) (n1 n2 : Nat) (u1 u2 : QuadTree) (i j : Nat)
    (r1 : Reachable ρ R c t1) (r2 : Reachable ρ R c t2)
    (k1 : (t1.child 0).isNull = false) (k2 : (t2.child 0).isNull = false)
    (e1 : t1.insertFuel ρ n1 p = .ok (true, u1)) (e2 : t2.insertFuel ρ n2 p = .ok (true, u2))
    (s1 : StoredUnder p t1 u1 i) (s2 : StoredUnder p t2 u2 j) : i = j := by
  obtain ⟨w1, x1⟩ := reachable_WF r1
  obtain ⟨w2, x2⟩ := reachable_WF r2
  have f1 := (storedUnder_iff_first ρ c R t1 p w1 x1 k1 n1 u1 e1 i).mp s1
  have f2 := (storedUnder_iff_first ρ c R t2 p w2 x2 k2 n2 u2 e2 j).mp s2
  exact f1.trans f2.symm

theorem boundary_point_child_is_fixed_witness :
    exampleTree.insertFuel rangeRounding 3 (pt 50 50) =
      .ok (true, .node exampleBox 1 [pt 10 10] exampleNWAfter exampleNE exampleSW exampleSE) ∧
    exampleTreeTwo.insertFuel rangeRounding 3 (pt 50 50) =
      .ok (true, .node exampleBox 1 [pt 10 10] exampleNWAfter exampleNE exampleSW
        (QuadTree.new (box 50 50 100 100) 1)) ∧
    StoredUnder (pt 50 50) exampleTree
      (.node exampleBox 1 [pt 10 10] exampleNWAfter exampleNE exampleSW exampleSE) 0 ∧
    StoredUnder (pt 50 50) exampleTreeTwo
      (.node exampleBox 1 [pt 10 10] exampleNWAfter exampleNE exampleSW
        (QuadTree.new (box 50 50 100 100) 1)) 0 ∧
    (0 : Nat) = 0 :=
  ⟨exampleTree_insert_mid, exampleTreeTwo_insert_mid, exampleNW_storedUnder _ _,
    exampleNW_storedUnder _ _,
    boundary_point_child_is_fixed rangeRounding exampleBox 1 exampleTree exampleTreeTwo
      (pt 50 50) 3 3 _ _ 0 0 exampleTree_reachable
      exampleTreeTwo_reachable rfl rfl exampleTree_insert_mid exampleTreeTwo_insert_mid
      (exampleNW_storedUnder _ _) (exampleNW_storedUnder _ _)⟩

/-- C14 fails on the code: there are no two trees reachable from fresh trees
with the same root boundary and the same capacity `≥ 1`, both with a
subdivided root, and a point accepted by more than one quadrant of the root,
such that `insert` stores the point below different children in the two
trees. -/
theorem no_fill_order_dependence :
    ¬ ∃ (ρ : Rounding) (R : BoundingBox) (c : Int) (t1 t2 : QuadTree) (p : Point)
        (n1 n2 : Nat) (u1 u2 : QuadTree) (i j a b : Nat),
      1 ≤ c ∧ c < 2 ^ 31 ∧ Reachable ρ R c t1 ∧ Reachable ρ R c t2 ∧
      (t1.child 0).isNull = false ∧ (t2.child 0).isNull = false ∧
      a < 4 ∧ b < 4 ∧ a ≠ b ∧
      (R.quadrant ρ a).contains p = true ∧ (R.quadrant ρ b).contains p = true ∧
      t1.insertFuel ρ n1 p = .ok (true, u1) ∧ t2.insertFuel ρ n2 p = .ok (true, u2) ∧
      StoredUnder p t1 u1 i ∧ StoredUnder p t2 u2 j ∧ i ≠ j := by
  rintro ⟨ρ, R, c, t1, t2, p, n1, n2, u1, u2, i, j, a, b, -, -, r1, r2, k1, k2, -, -, -, -, -,
    e1, e2, s1, s2, hij⟩
  obtain ⟨w1, x1⟩ := reachable_WF r1
  obtain ⟨w2, x2⟩ := reachable_WF r2
  have f1 := (storedUnder_iff_first ρ c R t1 p w1 x1 k1 n1 u1 e1 i).mp s1
  have f2 := (storedUnder_iff_first ρ c R t2 p w2 x2 k2 n2 u2 e2 j).mp s2
  exact hij (f1.trans f2.symm)

/-- C15: in every tree reachable from `QuadTree(R, c)` with `c` an `int ≥ 1`,
every node that has children holds at least as many points as its capacity,
so at every node the test `points.size() < capacity` of the code agrees with
the specified test "children absent and `buffer.size() < capacity`", `insert`
on the node does what the specified insertion does, and `insert` on a node
that has children leaves the buffer of that node as it was. -/
theorem buffer_grows_only_in_leaves (ρ : Rounding) (R : BoundingBox) (c : Int)
    (t : QuadTree) (hr : Reachable ρ R c t) (h1 : 1 ≤ c) (h2 : c < 2 ^ 31) :
    ∀ b cap pts nw ne sw se, QuadTree.node b cap pts nw ne sw se ∈ t.nodes →
      (nw.isNull = false → cap ≤ (pts.length : Int)) ∧
      sizeLtCapacity pts.length cap = (nw.isNull && sizeLtCapacity pts.length cap) ∧
      (∀ n p, (QuadTree.node b cap pts nw ne sw se).insertFuel ρ n p =
        (QuadTree.node b cap pts nw ne sw se).insertSpecFuel ρ n p) ∧
      (nw.isNull = false → ∀ n p r t',
        (QuadTree.node b cap pts nw ne sw se).insertFuel ρ n p = .ok (r, t') →
        ∃ nw' ne' sw' se', t' = .node b cap pts nw' ne' sw' se') := by
  intro b cap pts nw ne sw se hmem
  have hwf := nodes_WF ρ c t (reachable_WF hr).1 _ hmem
  have hwf0 := hwf
  simp only [WF] at hwf
  obtain ⟨hcap, -, -, hkids⟩ := hwf
  have hfull : nw.isNull = false → sizeLtCapacity pts.length cap = false := by
    intro hk
    rcases hkids with ⟨rfl, -, -, -⟩ | ⟨hs, -⟩
    · simp [isNull] at hk
    · exact hs
  refine ⟨?_, ?_, ?_, ?_⟩
  · intro hk
    have hs := hfull hk
    simp only [sizeLtCapacity, decide_eq_false_iff_not, not_lt] at hs
    subst hcap
    omega
  · cases hk : nw.isNull with
    | true => simp
    | false => simp [hfull hk]
  · intro n p
    exact insertFuel_eq_spec ρ c p n _ hwf0
  · intro hk n p r t' h
    cases n with
    | zero => simp [insertFuel] at h
    | succ n =>
      obtain ⟨nw', ne', sw', se', e, -⟩ :=
        insertFuel_inner_shape ρ c n b cap pts nw ne sw se p hwf0 hk r t' h
      exact ⟨nw', ne', sw', se', e⟩

theorem buffer_grows_only_in_leaves_witness :
    (exampleNW.isNull = false → (1 : Int) ≤ (([pt 10 10] : List Point).length : Int)) ∧
    sizeLtCapacity ([pt 10 10] : List Point).length 1 =
      (exampleNW.isNull && sizeLtCapacity ([pt 10 10] : List Point).length 1) ∧
    (∀ n p, (QuadTree.node exampleBox 1 [pt 10 10] exampleNW exampleNE exampleSW
        exampleSE).insertFuel rangeRounding n p =
      (QuadTree.node exampleBox 1 [pt 10 10] exampleNW exampleNE exampleSW
        exampleSE).insertSpecFuel rangeRounding n p) ∧
    (exampleNW.isNull = false → ∀ n p r t',
      (QuadTree.node exampleBox 1 [pt 10 10] exampleNW exampleNE exampleSW
        exampleSE).insertFuel rangeRounding n p = .ok (r, t') →
      ∃ nw' ne' sw' se', t' = .node exampleBox 1 [pt 10 10] nw' ne' sw' se') :=
  buffer_grows_only_in_leaves rangeRounding exampleBox 1 exampleTree exampleTree_reachable
    (by decide) (by norm_num) exampleBox 1 [pt 10 10] exampleNW exampleNE exampleSW exampleSE
    (List.Mem.head _)

/-- C16: in every tree reachable from `QuadTree(R, c)` with `c` an `int ≥ 1`,
every node, the root and every descendant, has capacity `c` and holds at most
`c` points in its own buffer. -/
theorem capacity_and_buffer_bound (ρ : Rounding) (R : BoundingBox) (c : Int) (t : QuadTree)
    (hr : Reachable ρ R c t) (h1 : 1 ≤ c) (h2 : c < 2 ^ 31) :
    ∀ b cap pts nw ne sw se, QuadTree.node b cap pts nw ne sw se ∈ t.nodes →
      cap = c ∧ (pts.length : Int) ≤ c := by
  intro b cap pts nw ne sw se hmem
  have hwf := nodes_WF ρ c t (reachable_WF hr).1 _ hmem
  simp only [WF] at hwf
  obtain ⟨hcap, -, hlen, -⟩ := hwf
  subst hcap
  exact ⟨rfl, by omega⟩

theorem capacity_and_buffer_bound_witness :
    (1 : Int) = 1 ∧ (([pt 10 10] : List Point).length : Int) ≤ 1 :=
  capacity_and_buffer_bound rangeRounding exampleBox 1 exampleTree exampleTree_reachable
    (by decide) (by norm_num) exampleBox 1 [pt 10 10] exampleNW exampleNE exampleSW exampleSE
    (List.Mem.head _)

/-- C17: in every tree reachable by `insert` calls from a fresh `QuadTree`, at
every node the four child pointers are all null or all non-null, neither
`insert` nor `queryRange` on the node calls a method through a null pointer,
and a returning `insert` on a node that has children leaves it with four
non-null children, each of them the child it had or the result of inserting
into that child, never a fresh subdivision. -/
theorem children_all_or_none (ρ : Rounding) (R : BoundingBox) (c : Int) (t : QuadTree)
    (hr : Reachable ρ R c t) :
    ∀ b cap pts nw ne sw se, QuadTree.node b cap pts nw ne sw se ∈ t.nodes →
      ((nw.isNull = true ∧ ne.isNull = true ∧ sw.isNull = true ∧ se.isNull = true) ∨
       (nw.isNull = false ∧ ne.isNull = false ∧ sw.isNull = false ∧ se.isNull = false)) ∧
      (∀ n p, (QuadTree.node b cap pts nw ne sw se).insertFuel ρ n p ≠ .error .nullDeref) ∧
      (∀ range results,
        (QuadTree.node b cap pts nw ne sw se).queryRange range results ≠ .error .nullDeref) ∧
      (nw.isNull = false → ∀ n p r t',
        (QuadTree.node b cap pts nw ne sw se).insertFuel ρ (n + 1) p = .ok (r, t') →
        ∃ nw' ne' sw' se', t' = .node b cap pts nw' ne' sw' se' ∧
          nw'.isNull = false ∧ ne'.isNull = false ∧ sw'.isNull = false ∧ se'.isNull = false ∧
          (nw' = nw ∨ ∃ x, nw.insertFuel ρ n p = .ok (x, nw')) ∧
          (ne' = ne ∨ ∃ x, ne.insertFuel ρ n p = .ok (x, ne')) ∧
          (sw' = sw ∨ ∃ x, sw.insertFuel ρ n p = .ok (x, sw')) ∧
          (se' = se ∨ ∃ x, se.insertFuel ρ n p = .ok (x, se'))) := by
  intro b cap pts nw ne sw se hmem
  have hwf := nodes_WF ρ c t (reachable_WF hr).1 _ hmem
  have hwf0 := hwf
  simp only [WF] at hwf
  obtain ⟨-, -, -, hkids⟩ := hwf
  refine ⟨?_, ?_, ?_, ?_⟩
  · rcases hkids with ⟨rfl, rfl, rfl, rfl⟩ | ⟨-, -, -, -, -, w1, w2, w3, w4⟩
    · exact Or.inl ⟨rfl, rfl, rfl, rfl⟩
    · exact Or.inr ⟨isNull_of_WF w1, isNull_of_WF w2, isNull_of_WF w3, isNull_of_WF w4⟩
  · intro n p
    exact insertFuel_no_nullDeref ρ c p n _ hwf0
  · intro range results
    rw [queryRange_spec ρ c _ hwf0 range results]
    simp
  · intro hk n p r t' h
    exact insertFuel_inner_shape ρ c n b cap pts nw ne sw se p hwf0 hk r t' h

theorem children_all_or_none_witness :
    ((exampleNW.isNull = true ∧ exampleNE.isNull = true ∧ exampleSW.isNull = true ∧
        exampleSE.isNull = true) ∨
     (exampleNW.isNull = false ∧ exampleNE.isNull = false ∧ exampleSW.isNull = false ∧
        exampleSE.isNull = false)) ∧
    (∀ n p, (QuadTree.node exampleBox 1 [pt 10 10] exampleNW exampleNE exampleSW
        exampleSE).insertFuel rangeRounding n p ≠ .error .nullDeref) ∧
    (∀ range results, (QuadTree.node exampleBox 1 [pt 10 10] exampleNW exampleNE exampleSW
        exampleSE).queryRange range results ≠ .error .nullDeref) ∧
    (exampleNW.isNull = false → ∀ n p r t',
      (QuadTree.node exampleBox 1 [pt 10 10] exampleNW exampleNE exampleSW
        exampleSE).insertFuel rangeRounding (n + 1) p = .ok (r, t') →
      ∃ nw' ne' sw' se', t' = .node exampleBox 1 [pt 10 10] nw' ne' sw' se' ∧
        nw'.isNull = false ∧ ne'.isNull = false ∧ sw'.isNull = false ∧ se'.isNull = false ∧
        (nw' = exampleNW ∨ ∃ x, exampleNW.insertFuel rangeRounding n p = .ok (x, nw')) ∧
        (ne' = exampleNE ∨ ∃ x, exampleNE.insertFuel rangeRounding n p = .ok (x, ne')) ∧
        (sw' = exampleSW ∨ ∃ x, exampleSW.insertFuel rangeRounding n p = .ok (x, sw')) ∧
        (se' = exampleSE ∨ ∃ x, exampleSE.insertFuel rangeRounding n p = .ok (x, se'))) :=
  children_all_or_none rangeRounding exampleBox 1 exampleTree exampleTree_reachable
    exampleBox 1 [pt 10 10] exampleNW exampleNE exampleSW exampleSE (List.Mem.head _)

/-- C19, as the code behaves: on every tree reachable from `QuadTree(R, c)`
with `c` an `int ≥ 1`, `insert(p)` returns, and a returning call subdivides at
most one node: the tree afterwards has as many nodes as before or exactly four
more; it has as many as before when the call returned `false` and no axis of
`R` runs from minus infinity to plus infinity. -/
theorem insert_adds_zero_or_four_nodes (ρ : Rounding) (R : BoundingBox) (c : Int)
    (t : QuadTree) (p : Point) (hr : Reachable ρ R c t) (h1 : 1 ≤ c) (h2 : c < 2 ^ 31) :
    (∃ n r t', t.insertFuel ρ n p = .ok (r, t')) ∧
    (∀ n r t', t.insertFuel ρ n p = .ok (r, t') →
      (t'.numNodes = t.numNodes ∨ t'.numNodes = t.numNodes + 4) ∧
      (R.NoFullAxis → r = false → t'.numNodes = t.numNodes)) := by
  obtain ⟨hwf, hbox⟩ := reachable_WF hr
  have hc := int_capacity_pos h1 h2
  constructor
  · obtain ⟨r, t', h, -⟩ := insertFuel_total ρ c hc p (t.height + 1) t hwf le_rfl
    exact ⟨_, r, t', h⟩
  · intro n r t' h
    refine ⟨insertFuel_numNodes ρ c hc p n t r t' hwf h, ?_⟩
    intro hg hf
    obtain ⟨-, -, -, f, -⟩ := insertFuel_spec ρ c p n t r t' hwf h
    rw [(f hf).2 R hbox hg]

theorem insert_adds_zero_or_four_nodes_witness :
    (∃ n r t', exampleTree.insertFuel rangeRounding n (pt 20 30) = .ok (r, t')) ∧
    (∀ n r t', exampleTree.insertFuel rangeRounding n (pt 20 30) = .ok (r, t') →
      (t'.numNodes = exampleTree.numNodes ∨ t'.numNodes = exampleTree.numNodes + 4) ∧
      (exampleBox.NoFullAxis → r = false → t'.numNodes = exampleTree.numNodes)) :=
  insert_adds_zero_or_four_nodes rangeRounding exampleBox 1 exampleTree (pt 20 30)
    exampleTree_reachable (by decide) (by norm_num)

/-- C19 fails on the code: on the reachable whole-plane leaf with capacity 1,
whatever the rounding, the call `insert((2,2))` returns `false` and yet the
tree grows from one node to five. -/
theorem false_insert_adds_four_nodes :
    planeLeaf.numNodes = 1 ∧ planeSplit.numNodes = 5 ∧
    (∀ ρ : Rounding,
      Reachable ρ wholePlane 1 planeLeaf ∧
      planeLeaf.insertFuel ρ 2 (pt 2 2) = .ok (false, planeSplit)) := by
  refine ⟨?_, ?_, fun ρ => ⟨planeLeaf_reachable ρ, planeLeaf_insert ρ 0 2 2⟩⟩
  · simp [planeLeaf, numNodes]
  · simp [planeSplit, numNodes, QuadTree.new]

/-- C20: with a negative `int` capacity `c` the test `points.size() < capacity`
compares against `c + 2 ^ 64`, so on a fresh tree any sequence of fewer than
`2 ^ 64 + c` points is handled without subdividing: each `insert` returns
whether the root boundary contains the point, the contained points are
appended to the buffer of the root in order, and the root stays a leaf. -/
theorem negative_capacity_never_subdivides (ρ : Rounding) (R : BoundingBox) (c : Int)
    (ps : List Point) (n : Nat) (h1 : c < 0) (h2 : -2 ^ 31 ≤ c)
    (h3 : (ps.length : Int) < 2 ^ 64 + c) :
    (QuadTree.new R c).insertAll ρ (n + 1) ps =
      .ok (ps.map (fun q => R.contains q),
        .node R c (ps.filter (fun q => R.contains q)) .null .null .null .null) := by
  have hm : c % 2 ^ 64 = c + 2 ^ 64 := by omega
  have := insertAll_leaf ρ R c n ps [] (by
    simp only [List.length_nil, Nat.zero_add]
    omega)
  simpa [QuadTree.new] using this

theorem negative_capacity_never_subdivides_witness :
    (QuadTree.new exampleBox (-1)).insertAll rangeRounding (0 + 1)
        [pt 10 10, pt 200 5, pt 20 20] =
      .ok ([pt 10 10, pt 200 5, pt 20 20].map (fun q => exampleBox.contains q),
        .node exampleBox (-1)
          ([pt 10 10, pt 200 5, pt 20 20].filter (fun q => exampleBox.contains q))
          .null .null .null .null) :=
  negative_capacity_never_subdivides rangeRounding exampleBox (-1)
    [pt 10 10, pt 200 5, pt 20 20] 0 (by decide) (by norm_num) (by norm_num)

end QuadTreeModel
